import Mathlib

/-!
Thermolino: acquisition and serial protocol loop.

Shallow embedding of `src/Thermolino.cpp`.

Conventions of the embedding.

* A byte (`byte`, `char`) is a `Nat`; text is a list of byte values, so `'U'` is `85`,
  `'T'` is `84`, `':'` is `58`, the line feed is `10`, the blank is `32`, the comma is `44`
  and NUL is `0`.
* `float` quantities (`temp`, `voltage`, sensor readings) are exact rationals; the
  formatting done by `dtostrf` and `dtostre` is not modelled, a printed number is
  carried as its value.
* `millis()` readings and the two timestamps are naturals below `2 ^ 32`; the
  subtraction of line 137, 144 and 151 is the 32-bit unsigned one.
* A pointer into `commandBuffer` is the list of bytes from that address to the end of
  the 51-byte array.  Reading past the end of the array, dereferencing a null pointer
  and indexing a table out of bounds have no defined behaviour in C; the functions
  of the embedding return `none` there.
* Hardware inputs (sensor readings, SPI response bytes, pin levels, clock readings,
  pending serial bytes) are arguments of the functions that read them.  The pending
  serial bytes are the bytes that arrive before the read of line 285 times out.
* The local array `commandPointers` has 2 slots.  `pointer_writes` lists the stores
  that the tokenizer loop makes, `tokenize_checked` does them on the 2-slot array and
  gives `none` when an index is out of bounds; `handle_command` works on its result.
  `pointer_values` lists the values of these stores without the indices.
* The two `while` loops carry a fuel argument and are started with more fuel than
  they can use (lemmas `listen_loop_fuel` and `pointer_values_isSome_iff`).
-/

namespace Thermolino

/-! ## Library primitives used by the sketch -/

/-- The call `memset(buf, c, n)`: the first `n` bytes become `c`, the bytes from index
`n` on keep their content. -/
def memset (buf : List Nat) (c n : Nat) : List Nat :=
  List.replicate (min n buf.length) c ++ buf.drop n

/-- The call `Serial.readBytesUntil(terminator, buffer, length)` of the Arduino `Stream`
class, on the bytes that arrive on the line: bytes are taken until `length` of them
are stored, the terminator is met (it is consumed and not stored) or no byte is left
(the read times out).  The result is the stored bytes and the bytes left pending. -/
def readBytesUntil (terminator : Nat) : Nat → List Nat → List Nat × List Nat
  | 0, input => ([], input)
  | _ + 1, [] => ([], [])
  | n + 1, c :: cs =>
    if c = terminator then ([], cs)
    else (c :: (readBytesUntil terminator n cs).1, (readBytesUntil terminator n cs).2)

/-- First phase of `strtok`: bytes that belong to `delim` are skipped.  `none` when the
scan leaves the array before it meets a NUL or a byte that is no delimiter. -/
def skip_delims (delim : List Nat) : List Nat → Option (List Nat)
  | [] => none
  | c :: cs => if c ≠ 0 ∧ c ∈ delim then skip_delims delim cs else some (c :: cs)

/-- Second phase of `strtok`: the token runs up to the next delimiter, which is
overwritten by NUL (the saved pointer is the byte after it), or up to the NUL that
ends the string (the saved pointer stays on it).  The result is the token and the
memory at the saved pointer; `none` when the scan leaves the array. -/
def scan_token (delim : List Nat) : List Nat → Option (List Nat × List Nat)
  | [] => none
  | c :: cs =>
    if c = 0 then some ([], c :: cs)
    else if c ∈ delim then some ([], cs)
    else
      match scan_token delim cs with
      | none => none
      | some (tok, rest) => some (c :: tok, rest)

/-- One call of `strtok` with the scan pointer at `mem`: the token found (`none` is the
null pointer returned when only delimiters are left before the NUL) and the memory
at the saved pointer for the next call.  The outer `none` is a scan that leaves the
array. -/
def strtok (delim : List Nat) (mem : List Nat) : Option (Option (List Nat) × List Nat) :=
  match skip_delims delim mem with
  | none => none
  | some [] => none
  | some (c :: cs) =>
    if c = 0 then some (none, c :: cs)
    else
      match scan_token delim (c :: cs) with
      | none => none
      | some (tok, rest) => some (some tok, rest)

/-- The call `strncmp(a, b, n)` on two strings given by their bytes before the NUL: at
most `n` bytes are compared and the comparison stops at the first difference or at
the end of both strings. -/
def strncmp : List Nat → List Nat → Nat → Int
  | _, _, 0 => 0
  | a, b, n + 1 =>
    if a.headD 0 ≠ b.headD 0 then (a.headD 0 : Int) - (b.headD 0 : Int)
    else if a.headD 0 = 0 then 0
    else strncmp a.tail b.tail n

/-! ## Thermocouple driver (external library `Nanoshield_Termopar`) -/

/-- Thermocouple types of the driver. -/
inductive TcType where
  | TC_TYPE_B | TC_TYPE_E | TC_TYPE_J | TC_TYPE_K
  | TC_TYPE_N | TC_TYPE_R | TC_TYPE_S | TC_TYPE_T
  deriving DecidableEq, Repr

/-- Averaging modes of the driver. -/
inductive TcAveraging where
  | TC_AVG_OFF | TC_AVG_2_SAMPLES | TC_AVG_4_SAMPLES | TC_AVG_8_SAMPLES | TC_AVG_16_SAMPLES
  deriving DecidableEq, Repr

/-- The driver object `tc`: its configuration and the result of its last `read()`. -/
structure Nanoshield_Termopar where
  cs : Nat
  type : TcType
  avg : TcAveraging
  external : ℚ
  isOpen : Bool
  isOverUnderVoltage : Bool
  isInternalOutOfRange : Bool
  isExternalOutOfRange : Bool
  deriving DecidableEq, Repr

/-- Modelled from the spec: the driver method `hasError()` is not part of this
repository; the error mode is "entered when any error flag is set". -/
def Nanoshield_Termopar.hasError (tc : Nanoshield_Termopar) : Bool :=
  tc.isOpen || tc.isOverUnderVoltage || tc.isInternalOutOfRange || tc.isExternalOutOfRange

/-- What the sensor delivers at one `tc.read()`. -/
structure TcSample where
  external : ℚ
  isOpen : Bool
  isOverUnderVoltage : Bool
  isInternalOutOfRange : Bool
  isExternalOutOfRange : Bool
  deriving DecidableEq, Repr

/-- The call `tc.read()`: the readings of the object are replaced by those of the
sensor, the configuration stays. -/
def Nanoshield_Termopar.read (tc : Nanoshield_Termopar) (s : TcSample) : Nanoshield_Termopar :=
  { tc with
    external := s.external
    isOpen := s.isOpen
    isOverUnderVoltage := s.isOverUnderVoltage
    isInternalOutOfRange := s.isInternalOutOfRange
    isExternalOutOfRange := s.isExternalOutOfRange }

/-- The constructor `Nanoshield_Termopar(cs, type, avg)` followed by `begin()`: a
driver object with the given configuration and no reading yet. -/
def Nanoshield_Termopar.begin (cs : Nat) (type : TcType) (avg : TcAveraging) :
    Nanoshield_Termopar :=
  { cs := cs, type := type, avg := avg, external := 0, isOpen := false,
    isOverUnderVoltage := false, isInternalOutOfRange := false,
    isExternalOutOfRange := false }

/-! ## Globals of the sketch -/

/-- Line 6: `#define MINIMAL true`. -/
def MINIMAL : Bool := true

/-- Line 28: chip select pin of the thermocouple shield. -/
def termopar_cs : Nat := 8

/-- Lines 41-51: driver type for each value of `tc_type`. -/
def type : List TcType :=
  [TcType.TC_TYPE_K, TcType.TC_TYPE_S, TcType.TC_TYPE_B, TcType.TC_TYPE_J,
   TcType.TC_TYPE_N, TcType.TC_TYPE_R, TcType.TC_TYPE_T, TcType.TC_TYPE_E]

/-- Lines 53-63: display letter for each value of `tc_type`
(`K`, `S`, `B`, `J`, `N`, `R`, `T`, `E`). -/
def Type_String : List Nat := [75, 83, 66, 74, 78, 82, 84, 69]

/-- Lines 66-70: control byte of the ADC for each channel. -/
def adc_controlByte : List Nat := [0b01100000, 0b00110000]

/-- The mutable globals of lines 9-22 and 73. -/
structure State where
  tc : Nanoshield_Termopar
  temp : ℚ
  voltage : ℚ
  button_last_pressed : Nat
  last_display_update : Nat
  tc_type : Nat
  adc_chan : Nat
  mode : Nat
  deriving DecidableEq, Repr

/-! ## Sampling of the ADC (lines 165-192) -/

/-- Value of a bit pattern as the 16-bit two's complement `int` of the target. -/
def int16 (n : Nat) : Int :=
  if n % 65536 < 32768 then ((n % 65536 : Nat) : Int) else ((n % 65536 : Nat) : Int) - 65536

/-- Line 184: `result = (hiByte<<8)|loByte`, for the two response bytes of the
transfer. -/
def adc_result (hiByte loByte : Nat) : Int :=
  int16 (((hiByte % 256) <<< 8) ||| (loByte % 256))

/-- The function `read_adc`: the new state and the control byte sent on the bus.
`hiByte` and `loByte` are the two bytes the ADC answers.  `none` when `adc_chan` is no
index of `adc_controlByte`. -/
def read_adc (st : State) (hiByte loByte : Nat) : Option (State × Nat) :=
  match adc_controlByte[st.adc_chan]? with
  | none => none
  | some control =>
    some ({ st with
            voltage := (2048 * (adc_result hiByte loByte : ℚ) / 32768) * 0.001
              + st.voltage * 0.999 },
          control)

/-! ## Thermocouple type selection (lines 194-206) -/

/-- The function `toggle_tc_type`; `tc_type` is a `byte`, so the increment is modulo
256.  `none` when the new `tc_type` is no index of `type`. -/
def toggle_tc_type (st : State) : Option State :=
  match type[if (st.tc_type + 1) % 256 > 7 then 0 else (st.tc_type + 1) % 256]? with
  | none => none
  | some t =>
    some { st with
           tc_type := if (st.tc_type + 1) % 256 > 7 then 0 else (st.tc_type + 1) % 256
           tc := Nanoshield_Termopar.begin termopar_cs t TcAveraging.TC_AVG_16_SAMPLES }

/-! ## Display (lines 208-268) -/

/-- What `lcd.print` is given: a string literal, or one of the two formatted lines,
carried as the values that are formatted. -/
inductive LcdText where
  | literal (s : String)
  | temperature_line (letter : Nat) (temp : ℚ)
  | adc_line (channel : Nat) (voltage : ℚ)
  deriving DecidableEq, Repr

/-- One call on the display driver. -/
inductive LcdOp where
  | clear
  | setCursor (col row : Nat)
  | print (text : LcdText)
  deriving DecidableEq, Repr

/-- The function `print_temperature`; `none` when `tc_type` is no index of
`Type_String`. -/
def print_temperature (st : State) : Option (List LcdOp) :=
  match Type_String[st.tc_type]? with
  | none => none
  | some letter =>
    some [LcdOp.setCursor 0 0, LcdOp.print (LcdText.temperature_line letter st.temp)]

/-- The function `print_errors`. -/
def print_errors (st : State) : List LcdOp :=
  LcdOp.setCursor 0 0 ::
    (if st.tc.isOpen then [LcdOp.print (LcdText.literal "Open circuit")]
     else if st.tc.isOverUnderVoltage then [LcdOp.print (LcdText.literal "OverUnderVoltage")]
     else if st.tc.isInternalOutOfRange then [LcdOp.print (LcdText.literal "Internal T OOR")]
     else if st.tc.isExternalOutOfRange then [LcdOp.print (LcdText.literal "External T OOR")]
     else [])

/-- The function `print_adc`. -/
def print_adc (st : State) : List LcdOp :=
  [LcdOp.setCursor 0 1, LcdOp.print (LcdText.adc_line (st.adc_chan + 1) st.voltage)]

/-- The function `update_lcd`; `print_adc` is compiled in only when `MINIMAL` is
false. -/
def update_lcd (st : State) : Option (List LcdOp) :=
  match (if st.tc.hasError then some (print_errors st) else print_temperature st) with
  | none => none
  | some ops => some (LcdOp.clear :: ops ++ (if MINIMAL = false then print_adc st else []))

/-! ## Serial command interpreter (lines 270-331) -/

/-- The literal `"FUNC"`. -/
def lit_FUNC : List Nat := [70, 85, 78, 67]

/-- The literal `"read?"`. -/
def lit_read : List Nat := [114, 101, 97, 100, 63]

/-- The literal `"'VOLT'"`, quote characters included. -/
def lit_VOLT : List Nat := [39, 86, 79, 76, 84, 39]

/-- The literal `"'TEMP'"`, quote characters included. -/
def lit_TEMP : List Nat := [39, 84, 69, 77, 80, 39]

/-- Lines 290-294 with the index `i` of the loop (a `byte`): the writes
`commandPointers[i] = strtok(nullptr, ",")` in order, each as the index written and
the value stored.  The fuel bounds the number of turns. -/
def pointer_writes_loop : Nat → Nat → List Nat → Option (List (Nat × Option (List Nat)))
  | 0, _, _ => none
  | fuel + 1, i, mem =>
    match strtok [44] mem with
    | none => none
    | some (none, _) => some [((i + 1) % 256, none)]
    | some (some tok, rest) =>
      match pointer_writes_loop fuel ((i + 1) % 256) rest with
      | none => none
      | some l => some (((i + 1) % 256, some tok) :: l)

/-- Lines 288-294: the writes to `commandPointers` in order, each as the index written
and the value stored. -/
def pointer_writes (commandBuffer : List Nat) : Option (List (Nat × Option (List Nat))) :=
  match strtok [32] commandBuffer with
  | none => none
  | some (none, _) => some [(0, none)]
  | some (some tok, rest) =>
    match pointer_writes_loop (rest.length + 1) 0 rest with
    | none => none
    | some l => some ((0, some tok) :: l)

/-- The values that `pointer_writes_loop` stores, in order, without the indices. -/
def pointer_values_loop (fuel : Nat) (mem : List Nat) : Option (List (Option (List Nat))) :=
  (pointer_writes_loop fuel 0 mem).map (List.map Prod.snd)

/-- The values that `pointer_writes` stores, in order, without the indices. -/
def pointer_values (commandBuffer : List Nat) : Option (List (Option (List Nat))) :=
  (pointer_writes commandBuffer).map (List.map Prod.snd)

/-- A fixed array of pointers with bounds-checked writes: the writes are done in
order, `none` when an index is not below the number of slots. -/
def store_checked (slots : List (Option (List Nat))) :
    List (Nat × Option (List Nat)) → Option (List (Option (List Nat)))
  | [] => some slots
  | (i, value) :: rest =>
    if i < slots.length then store_checked (slots.set i value) rest else none

/-- Lines 273 and 288-294: the array `commandPointers` of 2 slots after the stores of
the tokenizer loop; `none` when a store is out of bounds.  A slot that is not
written is listed as the null pointer (it is not read before slot 0 has been found
null). -/
def tokenize_checked (commandBuffer : List Nat) : Option (List (Option (List Nat))) :=
  match pointer_writes commandBuffer with
  | none => none
  | some writes => store_checked [none, none] writes

/-- The pointer read from `commandPointers[i]`; `none` for the null pointer and for a
slot the loop has not written. -/
def pointer_at (commandPointers : List (Option (List Nat))) (i : Nat) : Option (List Nat) :=
  commandPointers[i]?.join

/-- Lines 296-307: the `FUNC` branch.  `strncmp` reads through both pointers, so a
null pointer in slot 0 or, on a match of the verb, in slot 1 gives `none`. -/
def dispatch_func (st : State) (commandPointers : List (Option (List Nat))) : Option State :=
  match pointer_at commandPointers 0 with
  | none => none
  | some verb =>
    if strncmp verb lit_FUNC 4 = 0 then
      match pointer_at commandPointers 1 with
      | none => none
      | some arg =>
        let st1 := if strncmp arg lit_VOLT 6 = 0 then { st with mode := 85 } else st
        some (if strncmp arg lit_TEMP 6 = 0 then { st1 with mode := 84 } else st1)
    else some st

/-- Lines 309-328: the `read?` branch; the result is the list of lines written with
`Serial.println`, each carried as the number it prints. -/
def dispatch_read (st : State) (commandPointers : List (Option (List Nat))) : Option (List ℚ) :=
  match pointer_at commandPointers 0 with
  | none => none
  | some verb =>
    if strncmp verb lit_read 5 = 0 then
      some ((if st.mode = 84 then (if !st.tc.hasError then [st.temp] else []) else [])
        ++ (if st.mode = 85 then [st.voltage / 1000] else []))
    else some []

/-- Lines 296-328: both branches in sequence. -/
def dispatch (st : State) (commandPointers : List (Option (List Nat))) :
    Option (State × List ℚ) :=
  match dispatch_func st commandPointers with
  | none => none
  | some st1 =>
    match dispatch_read st1 commandPointers with
    | none => none
    | some out => some (st1, out)

/-- Lines 284-285: the content of `commandBuffer` after the `memset` and the read of
at most 50 bytes, together with the bytes still pending. -/
def fill_buffer (commandBuffer : List Nat) (input : List Nat) : List Nat × List Nat :=
  ((readBytesUntil 10 50 input).1
      ++ (memset commandBuffer 0 50).drop (readBytesUntil 10 50 input).1.length,
    (readBytesUntil 10 50 input).2)

/-- Lines 283-328: what happens once the start character has been read.  `none` when
the buffer holds no terminated string, when a token pointer is stored outside the 2
slots of `commandPointers`, and when the dispatcher reads through a null pointer. -/
def handle_command (st : State) (commandBuffer : List Nat) (input : List Nat) :
    Option (State × List ℚ) :=
  match tokenize_checked (fill_buffer commandBuffer input).1 with
  | none => none
  | some commandPointers => dispatch st commandPointers

/-- Lines 277-330: the `while` loop over the pending bytes.  `commandBuffer` is the
content of the local array, which line 272 leaves uninitialised.  The writes of NUL
that `strtok` does land below index 50 and are erased by the next `memset`, so the
array is passed on as it was filled.  The fuel bounds the number of turns. -/
def listen_loop : Nat → State → List Nat → List Nat → Option (State × List ℚ)
  | 0, _, _, _ => none
  | _ + 1, st, _, [] => some (st, [])
  | fuel + 1, st, commandBuffer, x :: input =>
    if x = 58 then
      match handle_command st commandBuffer input with
      | none => none
      | some (st1, out1) =>
        match listen_loop fuel st1 (fill_buffer commandBuffer input).1
            (fill_buffer commandBuffer input).2 with
        | none => none
        | some (st2, out2) => some (st2, out1 ++ out2)
    else listen_loop fuel st commandBuffer input

/-- The function `listen_to_serial` of lines 270-331 on the pending serial bytes. -/
def listen_to_serial (st : State) (commandBuffer : List Nat) (input : List Nat) :
    Option (State × List ℚ) :=
  listen_loop (input.length + 1) st commandBuffer input

/-! ## Setup and main loop (lines 89-163) -/

/-- The pin level `LOW`. -/
def LOW : Nat := 0

/-- The pin level `HIGH`. -/
def HIGH : Nat := 1

/-- A `millis()` reading stored in a 32-bit variable. -/
def stamp32 (now : Nat) : Nat := now % 2 ^ 32

/-- The 32-bit unsigned difference `millis() - last` of lines 137, 144 and 151. -/
def elapsed (now last : Nat) : Nat := (now % 2 ^ 32 + 2 ^ 32 - last % 2 ^ 32) % 2 ^ 32

/-- The function `setup`: the globals after it and the calls on the display.  The
arguments are the `millis()` readings of lines 123 and 124. -/
def setup (millis_123 millis_124 : Nat) : State × List LcdOp :=
  ({ tc := Nanoshield_Termopar.begin termopar_cs TcType.TC_TYPE_K TcAveraging.TC_AVG_16_SAMPLES
     temp := 0
     voltage := 0
     button_last_pressed := stamp32 millis_123
     last_display_update := stamp32 millis_124
     tc_type := 0
     adc_chan := 0
     mode := 85 },
   [LcdOp.print (LcdText.literal "Thermolino 2.0"), LcdOp.setCursor 0 1,
    LcdOp.print (LcdText.literal "Starting..."), LcdOp.clear])

/-- What one iteration of `loop` reads from the hardware: the sample of the
thermocouple, the two response bytes of the ADC, the level of the two button pins,
the `millis()` reading of each call site (named by its line; a reading is used only
if its call is reached), the content of the uninitialised local `commandBuffer` and
the pending serial bytes. -/
structure LoopInput where
  tc_sample : TcSample
  hiByte : Nat
  loByte : Nat
  millis_137 : Nat
  millis_139 : Nat
  tc_switch_button : Nat
  millis_144 : Nat
  millis_146 : Nat
  adc_switch_button : Nat
  millis_151 : Nat
  millis_153 : Nat
  commandBuffer : List Nat
  serial : List Nat
  deriving DecidableEq, Repr

/-- What one iteration of `loop` does to the outside: the control byte sent to the
ADC, the calls on the display, whether the body of the `if` of line 144 and of line
151 ran, and the lines written to the serial port. -/
structure LoopOutput where
  control : Nat
  lcd : List LcdOp
  tc_pressed : Bool
  adc_pressed : Bool
  serial : List ℚ
  deriving DecidableEq, Repr

/-- Lines 129-134: both samples are taken and the temperature is filtered. -/
def loop_measure (st : State) (inp : LoopInput) : Option (State × Nat) :=
  match read_adc { st with tc := st.tc.read inp.tc_sample } inp.hiByte inp.loByte with
  | none => none
  | some (st1, control) =>
    some ({ st1 with temp := st1.temp * 0.5 + st1.tc.external * 0.5 }, control)

/-- The condition of line 137. -/
def display_due (st : State) (inp : LoopInput) : Bool :=
  decide (elapsed inp.millis_137 st.last_display_update > 1000)

/-- Lines 136-141. -/
def loop_display (st : State) (inp : LoopInput) : Option (State × List LcdOp) :=
  if display_due st inp then
    match update_lcd { st with last_display_update := stamp32 inp.millis_139 } with
    | none => none
    | some ops => some ({ st with last_display_update := stamp32 inp.millis_139 }, ops)
  else some (st, [])

/-- The condition of line 144. -/
def tc_button_pressed (st : State) (inp : LoopInput) : Bool :=
  decide (inp.tc_switch_button = LOW) &&
    decide (elapsed inp.millis_144 st.button_last_pressed > 300)

/-- Lines 143-148. -/
def loop_tc_button (st : State) (inp : LoopInput) : Option State :=
  if tc_button_pressed st inp then
    toggle_tc_type { st with button_last_pressed := stamp32 inp.millis_146 }
  else some st

/-- The condition of line 151. -/
def adc_button_pressed (st : State) (inp : LoopInput) : Bool :=
  decide (inp.adc_switch_button = LOW) &&
    decide (elapsed inp.millis_151 st.button_last_pressed > 300)

/-- Lines 150-159; `adc_chan` is a `byte`, so the increment is modulo 256. -/
def loop_adc_button (st : State) (inp : LoopInput) : State :=
  if adc_button_pressed st inp then
    { st with
      button_last_pressed := stamp32 inp.millis_153
      adc_chan := if (st.adc_chan + 1) % 256 = 2 then 0 else (st.adc_chan + 1) % 256 }
  else st

/-- The function `loop`: one iteration. -/
def loop (st : State) (inp : LoopInput) : Option (State × LoopOutput) :=
  match loop_measure st inp with
  | none => none
  | some (st1, control) =>
    match loop_display st1 inp with
    | none => none
    | some (st2, lcd) =>
      match loop_tc_button st2 inp with
      | none => none
      | some st3 =>
        match listen_to_serial (loop_adc_button st3 inp) inp.commandBuffer inp.serial with
        | none => none
        | some (st5, serial) =>
          some (st5, { control := control, lcd := lcd,
                       tc_pressed := tc_button_pressed st2 inp,
                       adc_pressed := adc_button_pressed st3 inp,
                       serial := serial })

/-- Successive iterations of `loop`, one per element of the list: the final state
and what each iteration did. -/
def run (st : State) : List LoopInput → Option (State × List LoopOutput)
  | [] => some (st, [])
  | inp :: inps =>
    match loop st inp with
    | none => none
    | some (st1, out) =>
      match run st1 inps with
      | none => none
      | some (st2, outs) => some (st2, out :: outs)

/-! ## Definitions used to state the claims -/

/-- The non-empty pieces obtained by splitting `rest` on commas. -/
def comma_pieces (rest : List Nat) : List (List Nat) :=
  (rest.splitOn 44).filter (fun piece => !piece.isEmpty)

/-- The bytes of the line `garbage`. -/
def line_garbage : List Nat := [103, 97, 114, 98, 97, 103, 101]

/-- The indices `tc_type` and `adc_chan` are within their tables. -/
def State.valid (st : State) : Prop := st.tc_type < 8 ∧ st.adc_chan < 2

/-- The pending serial bytes of the iteration are handled without a scan past the
end of `commandBuffer` and without a read through a null pointer.  Whether they are
does not depend on the state (lemma `listen_loop_isSome`). -/
def serial_handled (inp : LoopInput) : Prop :=
  (listen_to_serial (setup 0 0).1 inp.commandBuffer inp.serial).isSome = true

/-- The `millis()` readings of one iteration, in the order of their call sites. -/
def clock_readings (inp : LoopInput) : List Nat :=
  [inp.millis_137, inp.millis_139, inp.millis_144, inp.millis_146, inp.millis_151,
   inp.millis_153]

/-- The clock readings from `start` on never decrease and fit in 32 bits. -/
def clock_monotone (start : Nat) (inps : List LoopInput) : Prop :=
  (start :: inps.flatMap clock_readings).Pairwise (fun a b => a ≤ b)
    ∧ ∀ t ∈ start :: inps.flatMap clock_readings, t < 2 ^ 32

/-- The debounce rule in the words of the specification.  Each element is one reading
of a button: whether the pin is LOW, the clock reading of the check and the clock
reading that becomes the time of the event if it is accepted.  A LOW reading is
accepted if and only if more than 300 ms have passed since `last`, the time of the
previous accepted event; the result tells for each reading whether it is accepted. -/
def debounce_spec (last : Nat) : List (Bool × Nat × Nat) → List Bool
  | [] => []
  | (low, check, stamp) :: rest =>
    if low = true ∧ check > last + 300 then true :: debounce_spec stamp rest
    else false :: debounce_spec last rest

/-- The readings of the thermocouple button in a run. -/
def tc_button_readings (inps : List LoopInput) : List (Bool × Nat × Nat) :=
  inps.map (fun inp => (decide (inp.tc_switch_button = LOW), inp.millis_144, inp.millis_146))

/-- The readings of the channel button in a run. -/
def adc_button_readings (inps : List LoopInput) : List (Bool × Nat × Nat) :=
  inps.map (fun inp => (decide (inp.adc_switch_button = LOW), inp.millis_151, inp.millis_153))

/-- The recurrence `t_n = 0.5 * t_(n-1) + 0.5 * r_n` of the specification, from the
prior value `t` over the raw samples in order. -/
def ema_recurrence (t : ℚ) : List ℚ → ℚ
  | [] => t
  | r :: rs => ema_recurrence (0.5 * t + 0.5 * r) rs

/-- The raw temperature samples of a run. -/
def raw_samples (inps : List LoopInput) : List ℚ :=
  inps.map (fun inp => inp.tc_sample.external)

/-- An iteration in which no button is held and no serial byte is pending, at the
clock reading `now` and with the raw temperature `raw`. -/
def quiet_input (raw : ℚ) (now : Nat) : LoopInput :=
  { tc_sample := { external := raw, isOpen := false, isOverUnderVoltage := false,
                   isInternalOutOfRange := false, isExternalOutOfRange := false }
    hiByte := 0
    loByte := 0
    millis_137 := now
    millis_139 := now
    tc_switch_button := HIGH
    millis_144 := now
    millis_146 := now
    adc_switch_button := HIGH
    millis_151 := now
    millis_153 := now
    commandBuffer := List.replicate 51 170
    serial := [] }

/-- A quiet iteration at the clock reading `now`, except that the thermocouple button
reads LOW. -/
def tc_press_input (now : Nat) : LoopInput :=
  { quiet_input 0 now with tc_switch_button := LOW }

/-- A quiet iteration at the clock reading `now`, except that the channel button
reads LOW. -/
def adc_press_input (now : Nat) : LoopInput :=
  { quiet_input 0 now with adc_switch_button := LOW }

/-- A quiet iteration at the clock reading `now`, except that both buttons read
LOW. -/
def both_press_input (now : Nat) : LoopInput :=
  { quiet_input 0 now with tc_switch_button := LOW, adc_switch_button := LOW }

/-- The letter that names a thermocouple type. -/
def TcType.letter : TcType → Nat
  | TcType.TC_TYPE_B => 66
  | TcType.TC_TYPE_E => 69
  | TcType.TC_TYPE_J => 74
  | TcType.TC_TYPE_K => 75
  | TcType.TC_TYPE_N => 78
  | TcType.TC_TYPE_R => 82
  | TcType.TC_TYPE_S => 83
  | TcType.TC_TYPE_T => 84

/-- Successive calls of `toggle_tc_type`. -/
def toggle_times : Nat → State → Option State
  | 0, st => some st
  | n + 1, st =>
    match toggle_tc_type st with
    | none => none
    | some st1 => toggle_times n st1

/-- The states the sketch can be in between two iterations of `loop`: those that some
run reaches from the state after `setup`. -/
def reachable (st : State) : Prop :=
  ∃ (millis_123 millis_124 : Nat) (inps : List LoopInput) (outs : List LoopOutput),
    run (setup millis_123 millis_124).1 inps = some (st, outs)

/-- The accepted presses of the channel button in a run. -/
def adc_presses (outs : List LoopOutput) : Nat :=
  (outs.filter (fun o => o.adc_pressed)).length

/-- The display was redrawn in the iteration: `update_lcd` ran (its first call on the
display is always `clear`). -/
def LoopOutput.redrawn (out : LoopOutput) : Bool := !out.lcd.isEmpty

/-- The refresh rule in the words of the specification.  Each element is one
iteration: the clock reading of the check and the clock reading that becomes the
stored timestamp if the display is redrawn.  The display is redrawn if and only if
more than 1000 ms have passed since `last`, the stored timestamp; the result tells
for each iteration whether the display is redrawn. -/
def refresh_spec (last : Nat) : List (Nat × Nat) → List Bool
  | [] => []
  | (check, stamp) :: rest =>
    if check > last + 1000 then true :: refresh_spec stamp rest
    else false :: refresh_spec last rest

/-- The clock readings of lines 137 and 139 in a run. -/
def display_readings (inps : List LoopInput) : List (Nat × Nat) :=
  inps.map (fun inp => (inp.millis_137, inp.millis_139))

/-- A quiet iteration at the clock reading `now` with an open circuit and an internal
temperature out of range reported by the sensor. -/
def fault_input (now : Nat) : LoopInput :=
  { quiet_input 0 now with
    tc_sample := { external := 0, isOpen := true, isOverUnderVoltage := false,
                   isInternalOutOfRange := true, isExternalOutOfRange := false } }

/-- The millivolt value `2048 * code / 32768` of an ADC code. -/
def millivolts (code : Int) : ℚ := 2048 * (code : ℚ) / 32768

theorem strncmp_literal (lit : List Nat) (h : ∀ c ∈ lit, c ≠ 0) (a : List Nat) :
    strncmp a lit lit.length = 0 ↔ a.take lit.length = lit := by
  induction lit generalizing a with
  | nil => simp [strncmp]
  | cons c cs ih =>
    have hc : c ≠ 0 := h c (List.mem_cons_self c cs)
    have hcs : ∀ x ∈ cs, x ≠ 0 := fun x hx => h x (List.mem_cons_of_mem c hx)
    cases a with
    | nil =>
      have : ¬ ((0 : Int) - (c : Int) = 0) := by omega
      simp [strncmp, hc, Ne.symm hc, this]
    | cons x xs =>
      by_cases hx : x = c
      · subst hx
        simp [strncmp, hc, ih hcs xs]
      · have : ¬ ((x : Int) - (c : Int) = 0) := by omega
        simp [strncmp, hx, this]

theorem strncmp_FUNC (a : List Nat) : strncmp a lit_FUNC 4 = 0 ↔ a.take 4 = lit_FUNC :=
  strncmp_literal lit_FUNC (by decide) a

theorem strncmp_read (a : List Nat) : strncmp a lit_read 5 = 0 ↔ a.take 5 = lit_read :=
  strncmp_literal lit_read (by decide) a

theorem strncmp_VOLT (a : List Nat) : strncmp a lit_VOLT 6 = 0 ↔ a.take 6 = lit_VOLT :=
  strncmp_literal lit_VOLT (by decide) a

theorem strncmp_TEMP (a : List Nat) : strncmp a lit_TEMP 6 = 0 ↔ a.take 6 = lit_TEMP :=
  strncmp_literal lit_TEMP (by decide) a

theorem scan_token_nul (delim s tail : List Nat)
    (hs : ∀ c ∈ s, c ≠ 0 ∧ c ∉ delim) :
    scan_token delim (s ++ 0 :: tail) = some (s, 0 :: tail) := by
  induction s with
  | nil => simp [scan_token]
  | cons c cs ih =>
    have hc := hs c (List.mem_cons_self c cs)
    have hcs : ∀ x ∈ cs, x ≠ 0 ∧ x ∉ delim := fun x hx => hs x (List.mem_cons_of_mem c hx)
    simp [scan_token, hc.1, hc.2, ih hcs]

theorem scan_token_delim (delim s mem : List Nat) (d : Nat)
    (hs : ∀ c ∈ s, c ≠ 0 ∧ c ∉ delim) (hd : d ≠ 0) (hmem : d ∈ delim) :
    scan_token delim (s ++ d :: mem) = some (s, mem) := by
  induction s with
  | nil => simp [scan_token, hd, hmem]
  | cons c cs ih =>
    have hc := hs c (List.mem_cons_self c cs)
    have hcs : ∀ x ∈ cs, x ≠ 0 ∧ x ∉ delim := fun x hx => hs x (List.mem_cons_of_mem c hx)
    simp [scan_token, hc.1, hc.2, ih hcs]

theorem strtok_nul (delim tail : List Nat) :
    strtok delim (0 :: tail) = some (none, 0 :: tail) := by
  simp [strtok, skip_delims]

theorem strtok_skip (delim mem : List Nat) (d : Nat) (hd : d ≠ 0) (hmem : d ∈ delim) :
    strtok delim (d :: mem) = strtok delim mem := by
  simp [strtok, skip_delims, hd, hmem]

theorem strtok_last (delim s tail : List Nat) (hne : s ≠ [])
    (hs : ∀ c ∈ s, c ≠ 0 ∧ c ∉ delim) :
    strtok delim (s ++ 0 :: tail) = some (some s, 0 :: tail) := by
  cases s with
  | nil => exact absurd rfl hne
  | cons c cs =>
    have hc := hs c (List.mem_cons_self c cs)
    have h := scan_token_nul delim (c :: cs) tail hs
    simp only [List.cons_append] at h
    simp [strtok, skip_delims, hc.1, hc.2, h]

theorem strtok_token (delim s mem : List Nat) (d : Nat) (hne : s ≠ [])
    (hs : ∀ c ∈ s, c ≠ 0 ∧ c ∉ delim) (hd : d ≠ 0) (hmem : d ∈ delim) :
    strtok delim (s ++ d :: mem) = some (some s, mem) := by
  cases s with
  | nil => exact absurd rfl hne
  | cons c cs =>
    have hc := hs c (List.mem_cons_self c cs)
    have h := scan_token_delim delim (c :: cs) mem d hs hd hmem
    simp only [List.cons_append] at h
    simp [strtok, skip_delims, hc.1, hc.2, h]

theorem comma_pieces_nil : comma_pieces [] = [] := by
  simp [comma_pieces, List.splitOn, List.splitOnP_nil]

theorem comma_pieces_comma (r : List Nat) : comma_pieces (44 :: r) = comma_pieces r := by
  simp [comma_pieces, List.splitOn, List.splitOnP_cons]

theorem comma_pieces_token (tok r : List Nat) (hne : tok ≠ []) (h : ∀ c ∈ tok, c ≠ 44) :
    comma_pieces (tok ++ 44 :: r) = tok :: comma_pieces r := by
  have h1 : (tok ++ 44 :: r).splitOnP (fun x => x == 44) = tok :: r.splitOnP (fun x => x == 44) :=
    List.splitOnP_first (fun x => x == 44) tok (by simpa using h) 44 (by simp) r
  cases tok with
  | nil => exact absurd rfl hne
  | cons c cs => 
    simp only [comma_pieces, List.splitOn, h1]
    simp

theorem comma_pieces_last (tok : List Nat) (hne : tok ≠ []) (h : ∀ c ∈ tok, c ≠ 44) :
    comma_pieces tok = [tok] := by
  have h1 : tok.splitOnP (fun x => x == 44) = [tok] :=
    List.splitOnP_eq_single (fun x => x == 44) tok (by simpa using h)
  cases tok with
  | nil => exact absurd rfl hne
  | cons c cs =>
    simp only [comma_pieces, List.splitOn, h1]
    simp

/-- A string that does not start with a comma is a comma-free token followed by
nothing or by a comma and the rest. -/
theorem token_split (l : List Nat) :
    ∃ tok suf, l = tok ++ suf ∧ (∀ c ∈ tok, c ≠ 44) ∧ (suf = [] ∨ ∃ r, suf = 44 :: r) := by
  induction l with
  | nil => exact ⟨[], [], rfl, by simp, Or.inl rfl⟩
  | cons c cs ih =>
    by_cases hc : c = 44
    · exact ⟨[], c :: cs, rfl, by simp, Or.inr ⟨cs, by rw [hc]⟩⟩
    · obtain ⟨tok, suf, h1, h2, h3⟩ := ih
      refine ⟨c :: tok, suf, by rw [h1]; rfl, ?_, h3⟩
      intro x hx
      rcases List.mem_cons.mp hx with rfl | hx
      · exact hc
      · exact h2 x hx

/-- The values that the loop stores do not depend on the index it starts from. -/
theorem pointer_writes_loop_values (fuel : Nat) : ∀ (i j : Nat) (mem : List Nat),
    (pointer_writes_loop fuel i mem).map (List.map Prod.snd)
      = (pointer_writes_loop fuel j mem).map (List.map Prod.snd) := by
  induction fuel with
  | zero => intro i j mem; rfl
  | succ fuel ih =>
    intro i j mem
    simp only [pointer_writes_loop]
    cases hs : strtok [44] mem with
    | none => rfl
    | some p =>
      obtain ⟨tok, rest⟩ := p
      cases tok with
      | none => rfl
      | some t =>
        simp only []
        have h := ih ((i + 1) % 256) ((j + 1) % 256) rest
        cases h1 : pointer_writes_loop fuel ((i + 1) % 256) rest with
        | none =>
          rw [h1] at h
          cases h2 : pointer_writes_loop fuel ((j + 1) % 256) rest with
          | none => rfl
          | some l2 => rw [h2] at h; simp at h
        | some l1 =>
          rw [h1] at h
          cases h2 : pointer_writes_loop fuel ((j + 1) % 256) rest with
          | none => rw [h2] at h; simp at h
          | some l2 =>
            rw [h2] at h
            simp only [Option.map_some', Option.some.injEq] at h
            simp [h]

theorem pointer_values_loop_zero (mem : List Nat) : pointer_values_loop 0 mem = none := rfl

/-- One turn of the loop, on the values. -/
theorem pointer_values_loop_succ (fuel : Nat) (mem : List Nat) :
    pointer_values_loop (fuel + 1) mem =
      match strtok [44] mem with
      | none => none
      | some (none, _) => some [none]
      | some (some tok, rest) =>
        match pointer_values_loop fuel rest with
        | none => none
        | some l => some (some tok :: l) := by
  unfold pointer_values_loop
  simp only [pointer_writes_loop]
  cases hs : strtok [44] mem with
  | none => rfl
  | some p =>
    obtain ⟨tok, rest⟩ := p
    cases tok with
    | none => rfl
    | some t =>
      simp only []
      have h := pointer_writes_loop_values fuel ((0 + 1) % 256) 0 rest
      cases h1 : pointer_writes_loop fuel ((0 + 1) % 256) rest with
      | none =>
        rw [h1] at h
        cases h2 : pointer_writes_loop fuel 0 rest with
        | none => rfl
        | some l2 => rw [h2] at h; simp at h
      | some l1 =>
        rw [h1] at h
        cases h2 : pointer_writes_loop fuel 0 rest with
        | none => rw [h2] at h; simp at h
        | some l2 =>
          rw [h2] at h
          simp only [Option.map_some', Option.some.injEq] at h
          simp [h]

/-- The first call of `strtok` and the loop, on the values. -/
theorem pointer_values_eq (commandBuffer : List Nat) :
    pointer_values commandBuffer =
      match strtok [32] commandBuffer with
      | none => none
      | some (none, _) => some [none]
      | some (some tok, rest) =>
        match pointer_values_loop (rest.length + 1) rest with
        | none => none
        | some l => some (some tok :: l) := by
  unfold pointer_values pointer_writes pointer_values_loop
  cases hs : strtok [32] commandBuffer with
  | none => rfl
  | some p =>
    obtain ⟨tok, rest⟩ := p
    cases tok with
    | none => rfl
    | some t =>
      simp only []
      cases pointer_writes_loop (rest.length + 1) 0 rest <;> rfl

theorem pointer_values_loop_spec (n : Nat) : ∀ (rest tail : List Nat) (fuel : Nat),
    rest.length = n → (∀ c ∈ rest, c ≠ 0) → rest.length < fuel →
    pointer_values_loop fuel (rest ++ 0 :: tail)
      = some ((comma_pieces rest).map some ++ [none]) := by
  induction n using Nat.strong_induction_on with
  | _ n ih =>
    intro rest tail fuel hlen hnul hfuel
    cases fuel with
    | zero => omega
    | succ fuel =>
      cases rest with
      | nil => simp [pointer_values_loop_succ, strtok_nul, comma_pieces_nil]
      | cons c cs =>
        have hc0 : c ≠ 0 := hnul c (List.mem_cons_self c cs)
        have hcs0 : ∀ x ∈ cs, x ≠ 0 := fun x hx => hnul x (List.mem_cons_of_mem c hx)
        simp only [List.length_cons] at hlen hfuel
        by_cases hc : c = 44
        · subst hc
          have hstep : pointer_values_loop (fuel + 1) (44 :: cs ++ 0 :: tail)
              = pointer_values_loop (fuel + 1) (cs ++ 0 :: tail) := by
            simp only [pointer_values_loop_zero, pointer_values_loop_succ, List.cons_append]
            rw [strtok_skip [44] (cs ++ 0 :: tail) 44 (by decide) (by simp)]
          rw [hstep, comma_pieces_comma]
          exact ih cs.length (by omega) cs tail (fuel + 1) rfl hcs0 (by omega)
        · obtain ⟨tok, suf, hsplit, htok, hsuf⟩ := token_split (c :: cs)
          have htokne : tok ≠ [] := by
            intro h
            subst h
            rcases hsuf with h | ⟨r, h⟩
            · simp [h] at hsplit
            · rw [h] at hsplit
              simp at hsplit
              exact hc hsplit.1
          have hall : ∀ x ∈ tok ++ suf, x ≠ 0 := by rw [← hsplit]; exact hnul
          have htok0 : ∀ x ∈ tok, x ≠ 0 ∧ x ∉ [44] := fun x hx =>
            ⟨hall x (List.mem_append_left suf hx), by simpa using htok x hx⟩
          have hlen2 : tok.length + suf.length = cs.length + 1 := by
            have := congrArg List.length hsplit
            simp at this
            omega
          have htl : 0 < tok.length := List.length_pos.mpr htokne
          rw [hsplit]
          rcases hsuf with h | ⟨r, h⟩
          · subst h
            simp only [List.append_nil] at hlen2 ⊢
            cases fuel with
            | zero => omega
            | succ fuel =>
              simp [pointer_values_loop_succ, strtok_last [44] tok tail htokne htok0, strtok_nul,
                comma_pieces_last tok htokne htok]
          · subst h
            have hr0 : ∀ x ∈ r, x ≠ 0 := fun x hx =>
              hall x (List.mem_append_right tok (List.mem_cons_of_mem 44 hx))
            simp only [List.length_cons] at hlen2
            have hih := ih r.length (by omega) r tail fuel rfl hr0 (by omega)
            simp only [pointer_values_loop_succ, List.append_assoc, List.cons_append]
            rw [strtok_token [44] tok (r ++ 0 :: tail) 44 htokne htok0 (by decide) (by simp)]
            simp [hih, comma_pieces_token tok r htokne htok]

theorem pointer_values_verb_args (v rest tail : List Nat) (hne : v ≠ [])
    (hv : ∀ c ∈ v, c ≠ 32 ∧ c ≠ 0) (hrest : ∀ c ∈ rest, c ≠ 0) :
    pointer_values (v ++ 32 :: rest ++ 0 :: tail)
      = some (some v :: (comma_pieces rest).map some ++ [none]) := by
  have hv0 : ∀ c ∈ v, c ≠ 0 ∧ c ∉ [32] := fun c hc => ⟨(hv c hc).2, by simpa using (hv c hc).1⟩
  have h := strtok_token [32] v (rest ++ 0 :: tail) 32 hne hv0 (by decide) (by simp)
  have hs := pointer_values_loop_spec rest.length rest tail ((rest ++ 0 :: tail).length + 1) rfl
    hrest
    (by simp; omega)
  simp only [List.append_assoc, List.cons_append] at h ⊢
  simp only [pointer_values_eq, h, hs]

theorem pointer_values_verb_only (line tail : List Nat) (hne : line ≠ [])
    (hline : ∀ c ∈ line, c ≠ 32 ∧ c ≠ 0) :
    pointer_values (line ++ 0 :: tail) = some [some line, none] := by
  have hv0 : ∀ c ∈ line, c ≠ 0 ∧ c ∉ [32] :=
    fun c hc => ⟨(hline c hc).2, by simpa using (hline c hc).1⟩
  have h := strtok_last [32] line tail hne hv0
  simp [pointer_values_eq, h, pointer_values_loop_zero, pointer_values_loop_succ, strtok_nul]

theorem readBytesUntil_line (t : Nat) (line more : List Nat) :
    ∀ n : Nat, t ∉ line → line.length < n →
      readBytesUntil t n (line ++ t :: more) = (line, more) := by
  induction line with
  | nil =>
    intro n _ hlen
    cases n with
    | zero => simp at hlen
    | succ n => simp [readBytesUntil]
  | cons c cs ih =>
    intro n h hlen
    cases n with
    | zero => simp at hlen
    | succ n =>
      have hc : c ≠ t := fun e => h (by simp [e])
      have hcs : t ∉ cs := fun e => h (List.mem_cons_of_mem c e)
      simp only [List.length_cons] at hlen
      simp [readBytesUntil, hc, ih n hcs (by omega)]

theorem readBytesUntil_full (t : Nat) (bytes more : List Nat) (h : t ∉ bytes) :
    readBytesUntil t bytes.length (bytes ++ more) = (bytes, more) := by
  induction bytes with
  | nil => simp [readBytesUntil]
  | cons c cs ih =>
    have hc : c ≠ t := fun e => h (by simp [e])
    have hcs : t ∉ cs := fun e => h (List.mem_cons_of_mem c e)
    simp [readBytesUntil, hc, ih hcs]

theorem memset_50 (buf : List Nat) (hbuf : buf.length = 51) :
    memset buf 0 50 = List.replicate 50 0 ++ buf.drop 50 := by
  simp [memset, hbuf]

theorem fill_buffer_line (buf line more : List Nat) (hbuf : buf.length = 51)
    (h : 10 ∉ line) (hlen : line.length < 50) :
    fill_buffer buf (line ++ 10 :: more)
      = (line ++ 0 :: (List.replicate (49 - line.length) 0 ++ buf.drop 50), more) := by
  have hr := readBytesUntil_line 10 line more 50 h hlen
  have h50 : 50 - line.length = (49 - line.length) + 1 := by omega
  simp only [fill_buffer, hr, memset_50 buf hbuf]
  rw [List.drop_append_of_le_length (by simp; omega), List.drop_replicate, h50,
    List.replicate_succ]
  simp

theorem fill_buffer_full (buf bytes more : List Nat) (hbuf : buf.length = 51)
    (h : 10 ∉ bytes) (hlen : bytes.length = 50) :
    fill_buffer buf (bytes ++ more) = (bytes ++ buf.drop 50, more) := by
  have hr := readBytesUntil_full 10 bytes more h
  rw [hlen] at hr
  simp only [fill_buffer, hr, memset_50 buf hbuf]
  rw [List.drop_append_of_le_length (by simp; omega)]
  simp [List.drop_replicate, hlen]

/-- A buffer without NUL is no string: every scan of `strtok` leaves the array. -/
theorem skip_delims_suffix (delim : List Nat) :
    ∀ mem r : List Nat, skip_delims delim mem = some r → ∀ c ∈ r, c ∈ mem := by
  intro mem
  induction mem with
  | nil => intro r h; simp [skip_delims] at h
  | cons x xs ih =>
    intro r h c hc
    by_cases hx : x ≠ 0 ∧ x ∈ delim
    · rw [skip_delims, if_pos hx] at h
      exact List.mem_cons_of_mem x (ih r h c hc)
    · rw [skip_delims, if_neg hx, Option.some.injEq] at h
      rw [← h] at hc
      exact hc

theorem scan_token_suffix (delim : List Nat) :
    ∀ mem tok r : List Nat, scan_token delim mem = some (tok, r) → ∀ c ∈ r, c ∈ mem := by
  intro mem
  induction mem with
  | nil => intro tok r h; simp [scan_token] at h
  | cons x xs ih =>
    intro tok r h c hc
    by_cases hx0 : x = 0
    · simp [scan_token, hx0] at h
      rw [← h.2] at hc
      rw [hx0]; exact hc
    · by_cases hxd : x ∈ delim
      · simp [scan_token, hx0, hxd] at h
        rw [← h.2] at hc
        exact List.mem_cons_of_mem x hc
      · simp only [scan_token, hx0, hxd, if_false] at h
        cases hs : scan_token delim xs with
        | none => simp [hs] at h
        | some p =>
          obtain ⟨tok1, r1⟩ := p
          simp [hs] at h
          rw [← h.2] at hc
          exact List.mem_cons_of_mem x (ih tok1 r1 hs c hc)

theorem strtok_no_nul (delim mem : List Nat) (h0 : 0 ∉ mem) :
    strtok delim mem = none ∨ ∃ tok r, strtok delim mem = some (some tok, r) ∧ 0 ∉ r := by
  unfold strtok
  cases hs : skip_delims delim mem with
  | none => simp
  | some m =>
    cases m with
    | nil => simp
    | cons c cs =>
      have hsub := skip_delims_suffix delim mem (c :: cs) hs
      have hc0 : c ≠ 0 := fun e => h0 (by rw [← e]; exact hsub c (List.mem_cons_self c cs))
      cases hk : scan_token delim (c :: cs) with
      | none => simp [hc0, hk]
      | some p =>
        obtain ⟨tok, r⟩ := p
        right
        refine ⟨tok, r, by simp [hc0, hk], ?_⟩
        intro hr
        exact h0 (hsub 0 (scan_token_suffix delim (c :: cs) tok r hk 0 hr))

theorem pointer_values_loop_no_nul : ∀ (fuel : Nat) (mem : List Nat), 0 ∉ mem →
    pointer_values_loop fuel mem = none := by
  intro fuel
  induction fuel with
  | zero => intro mem _; simp [pointer_values_loop_zero, pointer_values_loop_succ]
  | succ fuel ih =>
    intro mem h0
    rcases strtok_no_nul [44] mem h0 with h | ⟨tok, r, h, hr⟩
    · simp [pointer_values_loop_zero, pointer_values_loop_succ, h]
    · simp [pointer_values_loop_zero, pointer_values_loop_succ, h, ih r hr]

theorem pointer_values_no_nul (mem : List Nat) (h0 : 0 ∉ mem) : pointer_values mem = none := by
  rcases strtok_no_nul [32] mem h0 with h | ⟨tok, r, h, hr⟩
  · simp [pointer_values_eq, h]
  · simp [pointer_values_eq, h, pointer_values_loop_no_nul _ r hr]

/-! ## The array of token pointers -/

theorem skip_delims_length (delim : List Nat) :
    ∀ mem r : List Nat, skip_delims delim mem = some r → r.length ≤ mem.length := by
  intro mem
  induction mem with
  | nil => intro r h; simp [skip_delims] at h
  | cons x xs ih =>
    intro r h
    by_cases hx : x ≠ 0 ∧ x ∈ delim
    · rw [skip_delims, if_pos hx] at h
      have := ih r h
      simp only [List.length_cons]
      omega
    · rw [skip_delims, if_neg hx, Option.some.injEq] at h
      rw [← h]

theorem scan_token_length (delim : List Nat) :
    ∀ mem tok r : List Nat, scan_token delim mem = some (tok, r) → r.length ≤ mem.length := by
  intro mem
  induction mem with
  | nil => intro tok r h; simp [scan_token] at h
  | cons x xs ih =>
    intro tok r h
    by_cases hx0 : x = 0
    · simp [scan_token, hx0] at h
      rw [← h.2, hx0]
    · by_cases hxd : x ∈ delim
      · simp [scan_token, hx0, hxd] at h
        rw [← h.2]
        simp
      · simp only [scan_token, hx0, hxd, if_false] at h
        cases hs : scan_token delim xs with
        | none => simp [hs] at h
        | some p =>
          obtain ⟨tok1, r1⟩ := p
          simp [hs] at h
          have := ih tok1 r1 hs
          rw [← h.2]
          simp only [List.length_cons]
          omega

theorem strtok_length (delim mem : List Nat) (tok : Option (List Nat)) (r : List Nat)
    (h : strtok delim mem = some (tok, r)) : r.length ≤ mem.length := by
  unfold strtok at h
  cases hs : skip_delims delim mem with
  | none => simp [hs] at h
  | some m =>
    have hm := skip_delims_length delim mem m hs
    cases m with
    | nil => simp [hs] at h
    | cons c cs =>
      simp only [hs] at h
      by_cases hc : c = 0
      · simp only [hc, if_true, Option.some.injEq, Prod.mk.injEq] at h
        rw [← h.2, ← hc]
        exact hm
      · simp only [hc, if_false] at h
        cases hk : scan_token delim (c :: cs) with
        | none => simp [hk] at h
        | some p =>
          obtain ⟨t, r1⟩ := p
          simp only [hk, Option.some.injEq, Prod.mk.injEq] at h
          have := scan_token_length delim (c :: cs) t r1 hk
          rw [← h.2]
          omega

/-- The loop writes the slots after `i` one by one, with the values that `pointer_values_loop`
lists. -/
theorem pointer_writes_loop_eq : ∀ (fuel i : Nat) (mem : List Nat), i + fuel < 256 →
    pointer_writes_loop fuel i mem
      = (pointer_values_loop fuel mem).map (fun l => l.enumFrom (i + 1)) := by
  intro fuel
  induction fuel with
  | zero => intro i mem _; simp [pointer_writes_loop, pointer_values_loop_zero]
  | succ fuel ih =>
    intro i mem hi
    have hmod : (i + 1) % 256 = i + 1 := by omega
    simp only [pointer_writes_loop, pointer_values_loop_zero, pointer_values_loop_succ, hmod]
    cases hs : strtok [44] mem with
    | none => rfl
    | some p =>
      obtain ⟨tok, rest⟩ := p
      cases tok with
      | none => rfl
      | some t =>
        simp only []
        rw [ih (i + 1) rest (by omega)]
        cases pointer_values_loop fuel rest with
        | none => rfl
        | some l => rfl

/-- The slots are written in order from 0, with the values that `pointer_values` lists. -/
theorem pointer_writes_eq (commandBuffer : List Nat) (h : commandBuffer.length ≤ 51) :
    pointer_writes commandBuffer = (pointer_values commandBuffer).map (fun l => l.enum) := by
  rw [pointer_values_eq]
  unfold pointer_writes
  cases hs : strtok [32] commandBuffer with
  | none => rfl
  | some p =>
    obtain ⟨tok, rest⟩ := p
    have hl := strtok_length [32] commandBuffer tok rest hs
    cases tok with
    | none => rfl
    | some t =>
      simp only []
      rw [pointer_writes_loop_eq (rest.length + 1) 0 rest (by omega)]
      cases pointer_values_loop (rest.length + 1) rest with
      | none => rfl
      | some l => rfl

/-- Stores in a row from index 0 into the 2 slots: one or two fit, a third does not. -/
theorem store_checked_enum (l : List (Option (List Nat))) :
    store_checked [none, none] l.enum =
      match l with
      | [] => some [none, none]
      | [a] => some [a, none]
      | [a, b] => some [a, b]
      | _ :: _ :: _ :: _ => none := by
  match l with
  | [] => rfl
  | [a] => rfl
  | [a, b] => rfl
  | a :: b :: c :: r => simp [List.enum, List.enumFrom, store_checked]

theorem tokenize_checked_eq (buf : List Nat) (h : buf.length ≤ 51) :
    tokenize_checked buf =
      match pointer_values buf with
      | none => none
      | some l => store_checked [none, none] l.enum := by
  unfold tokenize_checked
  rw [pointer_writes_eq buf h]
  cases pointer_values buf <;> rfl

theorem dispatch_func_match (st : State) (cp : List (Option (List Nat))) (verb a : List Nat)
    (h0 : pointer_at cp 0 = some verb) (hverb : verb.take 4 = lit_FUNC)
    (h1 : pointer_at cp 1 = some a) :
    dispatch_func st cp = some { st with
      mode := if a.take 6 = lit_TEMP then 84 else if a.take 6 = lit_VOLT then 85 else st.mode } := by
  have hv := (strncmp_FUNC verb).mpr hverb
  simp only [dispatch_func, h0, h1, hv, if_true, strncmp_VOLT, strncmp_TEMP]
  have hne : lit_TEMP ≠ lit_VOLT := by decide
  by_cases hT : a.take 6 = lit_TEMP
  · simp [hT, hne]
  · by_cases hV : a.take 6 = lit_VOLT
    · simp [hV, hne.symm]
    · simp [hT, hV]

theorem dispatch_func_null (st : State) (cp : List (Option (List Nat))) (verb : List Nat)
    (h0 : pointer_at cp 0 = some verb) (hverb : verb.take 4 = lit_FUNC)
    (h1 : pointer_at cp 1 = none) :
    dispatch_func st cp = none := by
  have hv := (strncmp_FUNC verb).mpr hverb
  simp [dispatch_func, h0, h1, hv]

theorem dispatch_func_other (st : State) (cp : List (Option (List Nat))) (verb : List Nat)
    (h0 : pointer_at cp 0 = some verb) (hverb : verb.take 4 ≠ lit_FUNC) :
    dispatch_func st cp = some st := by
  have hv : ¬ strncmp verb lit_FUNC 4 = 0 := fun h => hverb ((strncmp_FUNC verb).mp h)
  simp [dispatch_func, h0, hv]

theorem dispatch_read_match (st : State) (cp : List (Option (List Nat))) (verb : List Nat)
    (h0 : pointer_at cp 0 = some verb) (hverb : verb.take 5 = lit_read) :
    dispatch_read st cp =
      some ((if st.mode = 84 then (if !st.tc.hasError then [st.temp] else []) else [])
        ++ (if st.mode = 85 then [st.voltage / 1000] else [])) := by
  have hv := (strncmp_read verb).mpr hverb
  simp [dispatch_read, h0, hv]

theorem dispatch_read_other (st : State) (cp : List (Option (List Nat))) (verb : List Nat)
    (h0 : pointer_at cp 0 = some verb) (hverb : verb.take 5 ≠ lit_read) :
    dispatch_read st cp = some [] := by
  have hv : ¬ strncmp verb lit_read 5 = 0 := fun h => hverb ((strncmp_read verb).mp h)
  simp [dispatch_read, h0, hv]

theorem dispatch_null (st : State) (cp : List (Option (List Nat)))
    (h0 : pointer_at cp 0 = none) : dispatch st cp = none := by
  simp [dispatch, dispatch_func, h0]

/-- One command followed by nothing more: `listen_to_serial` does what
`handle_command` does. -/
theorem listen_to_serial_single (st : State) (buf line : List Nat) (hbuf : buf.length = 51)
    (h10 : 10 ∉ line) (hlen : line.length < 50) :
    listen_to_serial st buf (58 :: (line ++ [10])) = handle_command st buf (line ++ [10]) := by
  have hf := fill_buffer_line buf line [] hbuf h10 hlen
  unfold listen_to_serial
  simp only [listen_loop, List.length_cons, if_true]
  cases hh : handle_command st buf (line ++ [10]) with
  | none => rfl
  | some r =>
    obtain ⟨st1, out1⟩ := r
    simp only [hf]
    have hl : (line ++ [10]).length = line.length + 1 := by simp
    rw [hl]
    simp [listen_loop]

/-- The command buffer once a line of fewer than 50 bytes has been read into it. -/
theorem handle_command_line (st : State) (buf line more : List Nat) (hbuf : buf.length = 51)
    (h10 : 10 ∉ line) (hlen : line.length < 50) :
    handle_command st buf (line ++ 10 :: more) =
      match tokenize_checked
          (line ++ 0 :: (List.replicate (49 - line.length) 0 ++ buf.drop 50)) with
      | none => none
      | some cp => dispatch st cp := by
  simp only [handle_command, fill_buffer_line buf line more hbuf h10 hlen]

/-! ## Lemmas on `listen_to_serial` as a part of `loop` -/

theorem dispatch_func_frame (st st1 : State) (cp : List (Option (List Nat)))
    (h : dispatch_func st cp = some st1) : st1 = { st with mode := st1.mode } := by
  unfold dispatch_func at h
  cases h0 : pointer_at cp 0 with
  | none => simp [h0] at h
  | some verb =>
    simp only [h0] at h
    by_cases hv : strncmp verb lit_FUNC 4 = 0
    · simp only [hv, if_true] at h
      cases h1 : pointer_at cp 1 with
      | none => simp [h1] at h
      | some a =>
        simp only [h1, Option.some.injEq] at h
        rw [← h]
        by_cases hV : strncmp a lit_VOLT 6 = 0 <;> by_cases hT : strncmp a lit_TEMP 6 = 0 <;>
          simp [hV, hT]
    · simp only [hv, if_false, Option.some.injEq] at h
      rw [← h]

theorem dispatch_frame (st st1 : State) (cp : List (Option (List Nat))) (out : List ℚ)
    (h : dispatch st cp = some (st1, out)) : st1 = { st with mode := st1.mode } := by
  unfold dispatch at h
  cases hf : dispatch_func st cp with
  | none => simp [hf] at h
  | some s =>
    simp only [hf] at h
    cases hr : dispatch_read s cp with
    | none => simp [hr] at h
    | some o =>
      simp only [hr, Option.some.injEq, Prod.mk.injEq] at h
      rw [← h.1]
      exact dispatch_func_frame st s cp hf

theorem dispatch_isSome (st st0 : State) (cp : List (Option (List Nat))) :
    (dispatch st cp).isSome = (dispatch st0 cp).isSome := by
  unfold dispatch dispatch_func dispatch_read
  cases h0 : pointer_at cp 0 with
  | none => simp
  | some verb =>
    by_cases hv : strncmp verb lit_FUNC 4 = 0
    · cases h1 : pointer_at cp 1 with
      | none => simp [hv]
      | some a => by_cases hr : strncmp verb lit_read 5 = 0 <;> simp [hv, hr]
    · by_cases hr : strncmp verb lit_read 5 = 0 <;> simp [hv, hr]

theorem handle_command_frame (st st1 : State) (buf input : List Nat) (out : List ℚ)
    (h : handle_command st buf input = some (st1, out)) :
    st1 = { st with mode := st1.mode } := by
  unfold handle_command at h
  cases ht : tokenize_checked (fill_buffer buf input).1 with
  | none => simp [ht] at h
  | some cp =>
    simp only [ht] at h
    exact dispatch_frame st st1 cp out h

theorem handle_command_isSome (st st0 : State) (buf input : List Nat) :
    (handle_command st buf input).isSome = (handle_command st0 buf input).isSome := by
  unfold handle_command
  cases ht : tokenize_checked (fill_buffer buf input).1 with
  | none => rfl
  | some cp => exact dispatch_isSome st st0 cp

theorem listen_loop_frame : ∀ (fuel : Nat) (st st1 : State) (buf input : List Nat)
    (out : List ℚ), listen_loop fuel st buf input = some (st1, out) →
    st1 = { st with mode := st1.mode } := by
  intro fuel
  induction fuel with
  | zero => intro st st1 buf input out h; simp [listen_loop] at h
  | succ fuel ih =>
    intro st st1 buf input out h
    cases input with
    | nil =>
      simp only [listen_loop, Option.some.injEq, Prod.mk.injEq] at h
      rw [← h.1]
    | cons x input =>
      by_cases hx : x = 58
      · simp only [listen_loop, hx, if_true] at h
        cases hh : handle_command st buf input with
        | none => simp [hh] at h
        | some r =>
          obtain ⟨s1, o1⟩ := r
          simp only [hh] at h
          cases hl : listen_loop fuel s1 (fill_buffer buf input).1 (fill_buffer buf input).2 with
          | none => simp [hl] at h
          | some r2 =>
            obtain ⟨s2, o2⟩ := r2
            simp only [hl, Option.some.injEq, Prod.mk.injEq] at h
            have e1 := handle_command_frame st s1 buf input o1 hh
            have e2 := ih s1 s2 _ _ o2 hl
            rw [← h.1, e2, e1]
      · simp only [listen_loop, hx, if_false] at h
        exact ih st st1 buf input out h

theorem listen_loop_isSome : ∀ (fuel : Nat) (st st0 : State) (buf input : List Nat),
    (listen_loop fuel st buf input).isSome = (listen_loop fuel st0 buf input).isSome := by
  intro fuel
  induction fuel with
  | zero => intro st st0 buf input; simp [listen_loop]
  | succ fuel ih =>
    intro st st0 buf input
    cases input with
    | nil => simp [listen_loop]
    | cons x input =>
      by_cases hx : x = 58
      · have hs := handle_command_isSome st st0 buf input
        simp only [listen_loop, hx, if_true]
        cases hh : handle_command st buf input with
        | none =>
          cases hh0 : handle_command st0 buf input with
          | none => rfl
          | some r0 => rw [hh, hh0] at hs; simp at hs
        | some r =>
          cases hh0 : handle_command st0 buf input with
          | none => rw [hh, hh0] at hs; simp at hs
          | some r0 =>
            obtain ⟨s1, o1⟩ := r
            obtain ⟨s0, o0⟩ := r0
            have hi := ih s1 s0 (fill_buffer buf input).1 (fill_buffer buf input).2
            simp only []
            cases hl : listen_loop fuel s1 (fill_buffer buf input).1 (fill_buffer buf input).2 with
            | none =>
              cases hl0 : listen_loop fuel s0 (fill_buffer buf input).1
                  (fill_buffer buf input).2 with
              | none => rfl
              | some q0 => rw [hl, hl0] at hi; simp at hi
            | some q =>
              cases hl0 : listen_loop fuel s0 (fill_buffer buf input).1
                  (fill_buffer buf input).2 with
              | none => rw [hl, hl0] at hi; simp at hi
              | some q0 => rfl
      · simp only [listen_loop, hx, if_false]
        exact ih st st0 buf input

theorem listen_to_serial_frame (st st1 : State) (buf input : List Nat) (out : List ℚ)
    (h : listen_to_serial st buf input = some (st1, out)) :
    st1 = { st with mode := st1.mode } :=
  listen_loop_frame _ st st1 buf input out h

theorem listen_to_serial_handled (st : State) (inp : LoopInput) (h : serial_handled inp) :
    ∃ st1 out, listen_to_serial st inp.commandBuffer inp.serial = some (st1, out) := by
  have hs : (listen_to_serial st inp.commandBuffer inp.serial).isSome = true := by
    unfold serial_handled at h
    unfold listen_to_serial at h ⊢
    rw [listen_loop_isSome _ st (setup 0 0).1]
    exact h
  obtain ⟨r, hr⟩ := Option.isSome_iff_exists.mp hs
  exact ⟨r.1, r.2, hr⟩

/-! ## The calls of `strtok` stay inside every terminated buffer, the loop never runs out of fuel -/

theorem skip_delims_terminated (delim tail : List Nat) :
    ∀ s : List Nat, (∀ c ∈ s, c ≠ 0) →
    ∃ s1, skip_delims delim (s ++ 0 :: tail) = some (s1 ++ 0 :: tail)
      ∧ (∀ c ∈ s1, c ≠ 0) ∧ s1.length ≤ s.length := by
  intro s
  induction s with
  | nil => intro _; exact ⟨[], by simp [skip_delims], by simp, by simp⟩
  | cons x xs ih =>
    intro h
    have hxs : ∀ c ∈ xs, c ≠ 0 := fun c hc => h c (List.mem_cons_of_mem x hc)
    by_cases hx : x ≠ 0 ∧ x ∈ delim
    · obtain ⟨s1, h1, h2, h3⟩ := ih hxs
      refine ⟨s1, ?_, h2, by simp only [List.length_cons]; omega⟩
      rw [List.cons_append, skip_delims, if_pos hx]
      exact h1
    · refine ⟨x :: xs, ?_, h, by simp⟩
      rw [List.cons_append, skip_delims, if_neg hx]

theorem scan_token_terminated (delim tail : List Nat) :
    ∀ s : List Nat, (∀ c ∈ s, c ≠ 0) →
    ∃ tok s1, scan_token delim (s ++ 0 :: tail) = some (tok, s1 ++ 0 :: tail)
      ∧ (∀ c ∈ s1, c ≠ 0) ∧ s1.length ≤ s.length := by
  intro s
  induction s with
  | nil => intro _; exact ⟨[], [], by simp [scan_token], by simp, by simp⟩
  | cons x xs ih =>
    intro h
    have hx0 : x ≠ 0 := h x (List.mem_cons_self x xs)
    have hxs : ∀ c ∈ xs, c ≠ 0 := fun c hc => h c (List.mem_cons_of_mem x hc)
    by_cases hxd : x ∈ delim
    · exact ⟨[], xs, by simp [scan_token, hx0, hxd], hxs, by simp⟩
    · obtain ⟨tok, s1, h1, h2, h3⟩ := ih hxs
      refine ⟨x :: tok, s1, ?_, h2, by simp only [List.length_cons]; omega⟩
      simp [scan_token, hx0, hxd, h1]

theorem strtok_terminated (delim tail s : List Nat) (h : ∀ c ∈ s, c ≠ 0) :
    ∃ tok s1, strtok delim (s ++ 0 :: tail) = some (tok, s1 ++ 0 :: tail)
      ∧ (∀ c ∈ s1, c ≠ 0) ∧ s1.length ≤ s.length := by
  obtain ⟨s1, h1, h2, h3⟩ := skip_delims_terminated delim tail s h
  cases s1 with
  | nil =>
    refine ⟨none, [], ?_, by simp, by simp⟩
    simp only [List.nil_append] at h1
    simp [strtok, h1]
  | cons c cs =>
    have hc0 : c ≠ 0 := h2 c (List.mem_cons_self c cs)
    obtain ⟨tok, s2, k1, k2, k3⟩ := scan_token_terminated delim tail (c :: cs) h2
    refine ⟨some tok, s2, ?_, k2, by omega⟩
    simp only [List.cons_append] at h1 k1
    simp [strtok, h1, hc0, k1]

/-- The calls of `strtok` stay inside the buffer exactly when it holds a NUL. -/
theorem pointer_values_isSome_iff (mem : List Nat) : (pointer_values mem).isSome = true ↔ 0 ∈ mem := by
  constructor
  · intro h
    by_contra h0
    rw [pointer_values_no_nul mem h0] at h
    simp at h
  · intro h0
    obtain ⟨s, tail, hmem, hs⟩ : ∃ s tail, mem = s ++ 0 :: tail ∧ ∀ c ∈ s, c ≠ 0 := by
      obtain ⟨s, tail, hmem, hs⟩ := List.eq_append_cons_of_mem h0
      exact ⟨s, tail, hmem, fun c hc e => hs (e ▸ hc)⟩
    obtain ⟨tok, s1, h1, h2, _⟩ := strtok_terminated [32] tail s hs
    rw [hmem]
    cases tok with
    | none => simp [pointer_values_eq, h1]
    | some t =>
      have hst := pointer_values_loop_spec s1.length s1 tail ((s1 ++ 0 :: tail).length + 1) rfl h2
        (by simp; omega)
      simp only [pointer_values_eq, h1, hst]
      rfl

theorem readBytesUntil_length (t : Nat) : ∀ (n : Nat) (input : List Nat),
    (readBytesUntil t n input).2.length ≤ input.length := by
  intro n
  induction n with
  | zero => intro input; simp [readBytesUntil]
  | succ n ih =>
    intro input
    cases input with
    | nil => simp [readBytesUntil]
    | cons c cs =>
      by_cases hc : c = t
      · simp [readBytesUntil, hc]
      · have := ih cs
        simp only [readBytesUntil, hc, if_false, List.length_cons]
        omega

/-- More fuel than the number of pending bytes changes nothing. -/
theorem listen_loop_fuel : ∀ (fuel : Nat) (st : State) (buf input : List Nat) (k : Nat),
    input.length < fuel → listen_loop (fuel + k) st buf input = listen_loop fuel st buf input := by
  intro fuel
  induction fuel with
  | zero => intro st buf input k h; omega
  | succ fuel ih =>
    intro st buf input k h
    have hk : fuel + 1 + k = (fuel + k) + 1 := by omega
    rw [hk]
    cases input with
    | nil => simp [listen_loop]
    | cons x input =>
      simp only [List.length_cons] at h
      by_cases hx : x = 58
      · have hlen : (fill_buffer buf input).2.length < fuel := by
          have := readBytesUntil_length 10 50 input
          simp only [fill_buffer]
          omega
        simp only [listen_loop, hx, if_true]
        cases hh : handle_command st buf input with
        | none => rfl
        | some r =>
          obtain ⟨s1, o1⟩ := r
          simp only []
          rw [ih s1 _ _ k hlen]
      · simp only [listen_loop, hx, if_false]
        exact ih st buf input k (by omega)

/-- A command line of fewer than 50 bytes, closed by a line feed, followed by more
input: the command is handled and the loop goes on with the bytes after the line
feed. -/
theorem listen_to_serial_step (st : State) (buf line more : List Nat)
    (hbuf : buf.length = 51) (h10 : 10 ∉ line) (hlen : line.length < 50) :
    listen_to_serial st buf (58 :: (line ++ 10 :: more)) =
      match handle_command st buf (line ++ 10 :: more) with
      | none => none
      | some (st1, out1) =>
        match listen_to_serial st1
            (line ++ 0 :: (List.replicate (49 - line.length) 0 ++ buf.drop 50)) more with
        | none => none
        | some (st2, out2) => some (st2, out1 ++ out2) := by
  have hf := fill_buffer_line buf line more hbuf h10 hlen
  unfold listen_to_serial
  have hl : (58 :: (line ++ 10 :: more)).length + 1 = ((more.length + 1) + (line.length + 1)) + 1 := by
    simp; omega
  rw [hl]
  simp only [listen_loop, if_true, hf]
  cases hh : handle_command st buf (line ++ 10 :: more) with
  | none => rfl
  | some r =>
    obtain ⟨s1, o1⟩ := r
    simp only []
    rw [listen_loop_fuel (more.length + 1) s1 _ more (line.length + 1) (by omega)]

theorem filled_buffer_length (buf line : List Nat) (hbuf : buf.length = 51)
    (hlen : line.length < 50) :
    (line ++ 0 :: (List.replicate (49 - line.length) 0 ++ buf.drop 50)).length = 51 := by
  simp [hbuf]
  omega

theorem listen_to_serial_nil (st : State) (buf : List Nat) :
    listen_to_serial st buf [] = some (st, []) := by
  simp [listen_to_serial, listen_loop]

/-! ## Whole command lines -/

/-- The dispatcher on a verb without argument that does not begin with `FUNC`. -/
theorem dispatch_verb_only (st : State) (v : List Nat) (hF : v.take 4 ≠ lit_FUNC) :
    dispatch st [some v, none]
      = some (st, if v.take 5 = lit_read then
          (if st.mode = 84 then (if !st.tc.hasError then [st.temp] else []) else [])
            ++ (if st.mode = 85 then [st.voltage / 1000] else [])
        else []) := by
  have hf : dispatch_func st [some v, none] = some st :=
    dispatch_func_other st _ v rfl hF
  by_cases hR : v.take 5 = lit_read
  · simp only [dispatch, hf, dispatch_read_match st [some v, none] v rfl hR, hR, if_true]
  · simp only [dispatch, hf, dispatch_read_other st [some v, none] v rfl hR, hR, if_false]

/-- The dispatcher on a verb without argument that begins with `FUNC`: line 299 reads
through the null pointer of slot 1. -/
theorem dispatch_func_verb_only (st : State) (v : List Nat) (hF : v.take 4 = lit_FUNC) :
    dispatch st [some v, none] = none := by
  simp only [dispatch, dispatch_func_null st [some v, none] v rfl hF rfl]

theorem tokenize_checked_verb_only (line tail : List Nat) (hne : line ≠ [])
    (hline : ∀ c ∈ line, c ≠ 32 ∧ c ≠ 0) (hlen : (line ++ 0 :: tail).length ≤ 51) :
    tokenize_checked (line ++ 0 :: tail) = some [some line, none] := by
  rw [tokenize_checked_eq _ hlen, pointer_values_verb_only line tail hne hline]
  rfl

/-- A line of fewer than 50 bytes that is a verb alone. -/
theorem handle_verb_line (st : State) (buf v more : List Nat) (hbuf : buf.length = 51)
    (hne : v ≠ []) (hv : ∀ c ∈ v, c ≠ 32 ∧ c ≠ 0 ∧ c ≠ 10) (hlen : v.length < 50) :
    handle_command st buf (v ++ 10 :: more) = dispatch st [some v, none] := by
  have h10 : 10 ∉ v := fun h => (hv 10 h).2.2 rfl
  rw [handle_command_line st buf v more hbuf h10 hlen,
    tokenize_checked_verb_only v _ hne (fun c hc => ⟨(hv c hc).1, (hv c hc).2.1⟩)
      (le_of_eq (filled_buffer_length buf v hbuf hlen))]

/-- The line `read?`. -/
theorem handle_read_line (st : State) (buf more : List Nat) (hbuf : buf.length = 51) :
    handle_command st buf (lit_read ++ 10 :: more)
      = some (st, (if st.mode = 84 then (if !st.tc.hasError then [st.temp] else []) else [])
          ++ (if st.mode = 85 then [st.voltage / 1000] else [])) := by
  rw [handle_verb_line st buf lit_read more hbuf (by decide) (by decide) (by decide),
    dispatch_verb_only st lit_read (by decide), if_pos (by decide)]

/-- The line `FUNC t` for a token `t` without NUL, line feed and comma: three stores. -/
theorem func_line_writes (buf t more : List Nat) (hbuf : buf.length = 51)
    (hne : t ≠ []) (ht : ∀ c ∈ t, c ≠ 0 ∧ c ≠ 10 ∧ c ≠ 44) (hlen : t.length ≤ 44) :
    pointer_writes (fill_buffer buf (lit_FUNC ++ 32 :: t ++ 10 :: more)).1
      = some [(0, some lit_FUNC), (1, some t), (2, none)] := by
  have h10 : 10 ∉ lit_FUNC ++ 32 :: t := by
    intro hmem
    rcases List.mem_append.mp hmem with h | h
    · revert h; decide
    · rcases List.mem_cons.mp h with h | h
      · omega
      · exact (ht 10 h).2.1 rfl
  have hl : (lit_FUNC ++ 32 :: t).length < 50 := by
    simp [lit_FUNC]; omega
  rw [fill_buffer_line buf (lit_FUNC ++ 32 :: t) more hbuf h10 hl,
    pointer_writes_eq _ (le_of_eq (filled_buffer_length buf _ hbuf hl)),
    pointer_values_verb_args lit_FUNC t _ (by decide) (by decide) (fun c hc => (ht c hc).1),
    comma_pieces_last t hne (fun c hc => (ht c hc).2.2)]
  rfl

theorem handle_func_line (st : State) (buf t more : List Nat) (hbuf : buf.length = 51)
    (hne : t ≠ []) (ht : ∀ c ∈ t, c ≠ 0 ∧ c ≠ 10 ∧ c ≠ 44) (hlen : t.length ≤ 44) :
    handle_command st buf (lit_FUNC ++ 32 :: t ++ 10 :: more) = none := by
  unfold handle_command tokenize_checked
  rw [func_line_writes buf t more hbuf hne ht hlen]
  simp [store_checked]

/-! ## Lemmas on `loop` -/

theorem read_adc_valid (st : State) (hiByte loByte : Nat) (h : st.adc_chan < 2) :
    ∃ control, read_adc st hiByte loByte =
      some ({ st with
              voltage := (2048 * (adc_result hiByte loByte : ℚ) / 32768) * 0.001
                + st.voltage * 0.999 },
            control) := by
  unfold read_adc
  have : st.adc_chan = 0 ∨ st.adc_chan = 1 := by omega
  rcases this with h0 | h1
  · exact ⟨0b01100000, by simp [h0, adc_controlByte]⟩
  · exact ⟨0b00110000, by simp [h1, adc_controlByte]⟩

theorem read_adc_frame (st st1 : State) (hiByte loByte control : Nat)
    (h : read_adc st hiByte loByte = some (st1, control)) :
    st1 = { st with
            voltage := (2048 * (adc_result hiByte loByte : ℚ) / 32768) * 0.001
              + st.voltage * 0.999 } := by
  unfold read_adc at h
  cases hc : adc_controlByte[st.adc_chan]? with
  | none => simp [hc] at h
  | some c =>
    simp only [hc, Option.some.injEq, Prod.mk.injEq] at h
    exact h.1.symm

theorem toggle_tc_type_some (st : State) :
    ∃ t, toggle_tc_type st = some { st with
      tc_type := if (st.tc_type + 1) % 256 > 7 then 0 else (st.tc_type + 1) % 256
      tc := Nanoshield_Termopar.begin termopar_cs t TcAveraging.TC_AVG_16_SAMPLES } := by
  unfold toggle_tc_type
  have hlt : (if (st.tc_type + 1) % 256 > 7 then 0 else (st.tc_type + 1) % 256) < type.length := by
    have : type.length = 8 := rfl
    rw [this]
    split <;> omega
  obtain ⟨t, ht⟩ : ∃ t, type[if (st.tc_type + 1) % 256 > 7 then 0
      else (st.tc_type + 1) % 256]? = some t :=
    ⟨_, List.getElem?_eq_getElem hlt⟩
  exact ⟨t, by simp only [ht]⟩

theorem update_lcd_valid (st : State) (h : st.tc_type < 8) : ∃ ops, update_lcd st = some ops := by
  unfold update_lcd
  by_cases he : st.tc.hasError = true
  · simp [he]
  · have hlt : st.tc_type < Type_String.length := h
    have hg : Type_String[st.tc_type]? = some (Type_String[st.tc_type]) :=
      List.getElem?_eq_getElem hlt
    simp [he, print_temperature, hg]

/-- What one iteration does to the globals and which of its two button branches
run. -/
theorem loop_effect (st st1 : State) (inp : LoopInput) (out : LoopOutput)
    (h : loop st inp = some (st1, out)) :
    st1.temp = st.temp * 0.5 + inp.tc_sample.external * 0.5
    ∧ st1.voltage = (2048 * (adc_result inp.hiByte inp.loByte : ℚ) / 32768) * 0.001
        + st.voltage * 0.999
    ∧ out.tc_pressed = tc_button_pressed st inp
    ∧ out.adc_pressed = adc_button_pressed
        { st with
          button_last_pressed := (if tc_button_pressed st inp then stamp32 inp.millis_146
            else st.button_last_pressed) } inp
    ∧ st1.button_last_pressed =
        (if out.adc_pressed then stamp32 inp.millis_153
         else if out.tc_pressed then stamp32 inp.millis_146 else st.button_last_pressed)
    ∧ st1.tc_type =
        (if out.tc_pressed then
          (if (st.tc_type + 1) % 256 > 7 then 0 else (st.tc_type + 1) % 256)
         else st.tc_type)
    ∧ st1.adc_chan =
        (if out.adc_pressed then
          (if (st.adc_chan + 1) % 256 = 2 then 0 else (st.adc_chan + 1) % 256)
         else st.adc_chan)
    ∧ st1.last_display_update =
        (if display_due st inp then stamp32 inp.millis_139 else st.last_display_update) := by
  unfold loop at h
  cases hm : loop_measure st inp with
  | none => simp [hm] at h
  | some r1 =>
    obtain ⟨s1, control⟩ := r1
    simp only [hm] at h
    cases hd : loop_display s1 inp with
    | none => simp [hd] at h
    | some r2 =>
      obtain ⟨s2, lcd⟩ := r2
      simp only [hd] at h
      cases ht : loop_tc_button s2 inp with
      | none => simp [ht] at h
      | some s3 =>
        simp only [ht] at h
        cases hl : listen_to_serial (loop_adc_button s3 inp) inp.commandBuffer inp.serial with
        | none => simp [hl] at h
        | some r5 =>
          obtain ⟨s5, serial⟩ := r5
          simp only [hl, Option.some.injEq, Prod.mk.injEq] at h
          obtain ⟨h5, hout⟩ := h
          subst h5
          subst hout
          -- the stages, one by one
          have e5 := listen_to_serial_frame _ _ _ _ _ hl
          have e1 : s1 = { st with
              tc := st.tc.read inp.tc_sample
              voltage := (2048 * (adc_result inp.hiByte inp.loByte : ℚ) / 32768) * 0.001
                + st.voltage * 0.999
              temp := st.temp * 0.5 + inp.tc_sample.external * 0.5 } := by
            unfold loop_measure at hm
            cases hr : read_adc { st with tc := st.tc.read inp.tc_sample } inp.hiByte inp.loByte with
            | none => simp [hr] at hm
            | some q =>
              obtain ⟨q1, q2⟩ := q
              have eq := read_adc_frame _ _ _ _ _ hr
              simp only [hr, Option.some.injEq, Prod.mk.injEq] at hm
              rw [← hm.1, eq]
              rfl
          have e2 : s2 = { s1 with
              last_display_update := (if display_due s1 inp then stamp32 inp.millis_139
                else s1.last_display_update) } := by
            unfold loop_display at hd
            by_cases hdue : display_due s1 inp = true
            · simp only [hdue, if_true] at hd ⊢
              cases hu : update_lcd { s1 with last_display_update := stamp32 inp.millis_139 } with
              | none => simp [hu] at hd
              | some ops =>
                simp only [hu, Option.some.injEq, Prod.mk.injEq] at hd
                exact hd.1.symm
            · simp only [hdue, Bool.false_eq_true, if_false, Option.some.injEq,
                Prod.mk.injEq] at hd ⊢
              exact hd.1.symm
          have hdue : display_due s1 inp = display_due st inp := by
            rw [e1]; rfl
          have hp2 : tc_button_pressed s2 inp = tc_button_pressed st inp := by
            rw [e2, e1]; rfl
          have e3 : s3.button_last_pressed =
                (if tc_button_pressed st inp then stamp32 inp.millis_146
                 else st.button_last_pressed)
              ∧ s3.tc_type = (if tc_button_pressed st inp then
                  (if (st.tc_type + 1) % 256 > 7 then 0 else (st.tc_type + 1) % 256)
                 else st.tc_type)
              ∧ s3.temp = s2.temp ∧ s3.voltage = s2.voltage ∧ s3.adc_chan = s2.adc_chan
              ∧ s3.last_display_update = s2.last_display_update := by
            unfold loop_tc_button at ht
            rw [hp2] at ht
            by_cases hp : tc_button_pressed st inp = true
            · simp only [hp, if_true] at ht ⊢
              obtain ⟨t, htt⟩ := toggle_tc_type_some
                { s2 with button_last_pressed := stamp32 inp.millis_146 }
              rw [htt, Option.some.injEq] at ht
              rw [← ht, e2, e1]
              exact ⟨rfl, rfl, rfl, rfl, rfl, rfl⟩
            · simp only [hp, Bool.false_eq_true, if_false, Option.some.injEq] at ht ⊢
              rw [← ht, e2, e1]
              exact ⟨rfl, rfl, rfl, rfl, rfl, rfl⟩
          have hp3 : adc_button_pressed s3 inp = adc_button_pressed
              { st with
                button_last_pressed := (if tc_button_pressed st inp then stamp32 inp.millis_146
                  else st.button_last_pressed) } inp := by
            unfold adc_button_pressed
            rw [e3.1]
          rw [e5]
          refine ⟨?_, ?_, hp2, hp3, ?_, ?_, ?_, ?_⟩
          · show (loop_adc_button s3 inp).temp = _
            unfold loop_adc_button
            split <;> simp [e3.2.2.1, e2, e1]
          · show (loop_adc_button s3 inp).voltage = _
            unfold loop_adc_button
            split <;> simp [e3.2.2.2.1, e2, e1]
          · show (loop_adc_button s3 inp).button_last_pressed = _
            unfold loop_adc_button
            by_cases hp : adc_button_pressed s3 inp = true
            · simp [hp]
            · simp [hp, hp2, e3.1]
          · show (loop_adc_button s3 inp).tc_type = _
            unfold loop_adc_button
            rw [hp2]
            split <;> simp [e3.2.1]
          · show (loop_adc_button s3 inp).adc_chan = _
            unfold loop_adc_button
            by_cases hp : adc_button_pressed s3 inp = true
            · simp [hp, e3.2.2.2.2.1, e2, e1]
            · simp [hp, e3.2.2.2.2.1, e2, e1]
          · show (loop_adc_button s3 inp).last_display_update = _
            unfold loop_adc_button
            have hld : s1.last_display_update = st.last_display_update := by rw [e1]
            rw [← hdue]
            split <;> simp [e3.2.2.2.2.2, e2, hld]

theorem loop_total (st : State) (inp : LoopInput) (hv : st.valid) (hs : serial_handled inp) :
    ∃ st1 out, loop st inp = some (st1, out) := by
  obtain ⟨control, hr⟩ := read_adc_valid { st with tc := st.tc.read inp.tc_sample }
    inp.hiByte inp.loByte hv.2
  have hm : ∃ s1, loop_measure st inp = some (s1, control) ∧ s1.tc_type = st.tc_type := by
    unfold loop_measure
    rw [hr]
    exact ⟨_, rfl, rfl⟩
  obtain ⟨s1, hm, ht1⟩ := hm
  have hd : ∃ s2 lcd, loop_display s1 inp = some (s2, lcd) := by
    unfold loop_display
    by_cases hdue : display_due s1 inp = true
    · obtain ⟨ops, hu⟩ := update_lcd_valid
        { s1 with last_display_update := stamp32 inp.millis_139 }
        (by show s1.tc_type < 8; rw [ht1]; exact hv.1)
      simp only [hdue, if_true, hu]
      exact ⟨_, _, rfl⟩
    · simp only [hdue, Bool.false_eq_true, if_false]
      exact ⟨_, _, rfl⟩
  obtain ⟨s2, lcd, hd⟩ := hd
  have ht : ∃ s3, loop_tc_button s2 inp = some s3 := by
    unfold loop_tc_button
    by_cases hp : tc_button_pressed s2 inp = true
    · obtain ⟨t, htt⟩ := toggle_tc_type_some
        { s2 with button_last_pressed := stamp32 inp.millis_146 }
      simp only [hp, if_true, htt]
      exact ⟨_, rfl⟩
    · simp only [hp, Bool.false_eq_true, if_false]
      exact ⟨_, rfl⟩
  obtain ⟨s3, ht⟩ := ht
  obtain ⟨s5, serial, hl⟩ := listen_to_serial_handled (loop_adc_button s3 inp) inp hs
  unfold loop
  simp only [hm, hd, ht, hl]
  exact ⟨_, _, rfl⟩

theorem loop_valid (st st1 : State) (inp : LoopInput) (out : LoopOutput)
    (h : loop st inp = some (st1, out)) (hv : st.valid) : st1.valid := by
  obtain ⟨_, _, _, _, _, htc, hadc, _⟩ := loop_effect st st1 inp out h
  unfold State.valid at hv ⊢
  constructor
  · rw [htc]
    split
    · split <;> omega
    · exact hv.1
  · rw [hadc]
    split
    · split <;> omega
    · exact hv.2

theorem run_total : ∀ (inps : List LoopInput) (st : State), st.valid →
    (∀ inp ∈ inps, serial_handled inp) → ∃ st1 outs, run st inps = some (st1, outs) := by
  intro inps
  induction inps with
  | nil => intro st _ _; exact ⟨st, [], rfl⟩
  | cons inp inps ih =>
    intro st hv hs
    obtain ⟨s1, out, hl⟩ := loop_total st inp hv (hs inp (List.mem_cons_self inp inps))
    obtain ⟨s2, outs, hr⟩ := ih s1 (loop_valid st s1 inp out hl hv)
      (fun i hi => hs i (List.mem_cons_of_mem inp hi))
    exact ⟨s2, out :: outs, by simp only [run, hl, hr]⟩

/-- A run that returns has returned at its first iteration and on the rest. -/
theorem run_cons (st st2 : State) (inp : LoopInput) (inps : List LoopInput)
    (outs : List LoopOutput) (h : run st (inp :: inps) = some (st2, outs)) :
    ∃ st1 out outs1, loop st inp = some (st1, out) ∧ run st1 inps = some (st2, outs1)
      ∧ outs = out :: outs1 := by
  unfold run at h
  cases hl : loop st inp with
  | none => simp [hl] at h
  | some r =>
    obtain ⟨s1, out⟩ := r
    simp only [hl] at h
    cases hr : run s1 inps with
    | none => simp [hr] at h
    | some q =>
      obtain ⟨s2, outs1⟩ := q
      simp only [hr, Option.some.injEq, Prod.mk.injEq] at h
      exact ⟨s1, out, outs1, rfl, by rw [hr, h.1], h.2.symm⟩

theorem run_temp : ∀ (inps : List LoopInput) (st st1 : State) (outs : List LoopOutput),
    run st inps = some (st1, outs) → st1.temp = ema_recurrence st.temp (raw_samples inps) := by
  intro inps
  induction inps with
  | nil =>
    intro st st1 outs h
    simp only [run, Option.some.injEq, Prod.mk.injEq] at h
    rw [← h.1]
    rfl
  | cons inp inps ih =>
    intro st st2 outs h
    obtain ⟨s1, out, outs1, hl, hr, _⟩ := run_cons st st2 inp inps outs h
    have ht := (loop_effect st s1 inp out hl).1
    rw [ih s1 st2 outs1 hr, ht]
    simp only [raw_samples, List.map_cons, ema_recurrence]
    congr 1
    ring

theorem ema_recurrence_closed : ∀ (rs : List ℚ) (t : ℚ),
    ema_recurrence t rs = t / 2 ^ rs.length
      + ∑ k in Finset.range rs.length, rs.getD k 0 / 2 ^ (rs.length - k) := by
  intro rs
  induction rs with
  | nil => intro t; simp [ema_recurrence]
  | cons r rs ih =>
    intro t
    rw [ema_recurrence, ih]
    simp only [List.length_cons]
    rw [Finset.sum_range_succ']
    simp only [List.getD_cons_succ, List.getD_cons_zero, Nat.add_sub_add_right, Nat.sub_zero]
    have h2 : (2 : ℚ) ^ (rs.length + 1) = 2 * 2 ^ rs.length := by ring
    have hpos : (2 : ℚ) ^ rs.length ≠ 0 := by positivity
    rw [h2]
    field_simp
    ring

/-! ## Debouncing: lemmas -/

theorem elapsed_of_le (now last : Nat) (h : last ≤ now) (hn : now < 2 ^ 32) :
    elapsed now last = now - last := by
  unfold elapsed
  omega

theorem stamp32_of_lt (now : Nat) (hn : now < 2 ^ 32) : stamp32 now = now := by
  unfold stamp32
  omega

theorem clock_monotone_cons (start : Nat) (inp : LoopInput) (inps : List LoopInput)
    (h : clock_monotone start (inp :: inps)) :
    (start < 2 ^ 32 ∧ start ≤ inp.millis_144 ∧ inp.millis_144 < 2 ^ 32
      ∧ inp.millis_144 ≤ inp.millis_146 ∧ inp.millis_146 < 2 ^ 32
      ∧ start ≤ inp.millis_151 ∧ inp.millis_146 ≤ inp.millis_151 ∧ inp.millis_151 < 2 ^ 32
      ∧ inp.millis_151 ≤ inp.millis_153 ∧ inp.millis_153 < 2 ^ 32)
    ∧ clock_monotone start inps ∧ clock_monotone inp.millis_146 inps
    ∧ clock_monotone inp.millis_153 inps := by
  unfold clock_monotone at h ⊢
  obtain ⟨hp, hb⟩ := h
  simp only [List.flatMap_cons, clock_readings, List.pairwise_cons, List.pairwise_append,
    List.mem_cons, List.mem_append, List.cons_append, List.nil_append, forall_eq_or_imp] at hp hb
  simp only [List.pairwise_cons, List.mem_cons, forall_eq_or_imp]
  obtain ⟨⟨_, _, s144, _, s151, _, srest⟩, ⟨_, _, _, _, _, prest⟩, ⟨_, _, _, _, _⟩,
    ⟨h46, h51, _, r146⟩, ⟨_, _, r146b⟩, ⟨h53, r151⟩, ⟨r153, pw⟩⟩ := hp
  obtain ⟨b0, _, _, b144, b146, b151, b153, brest⟩ := hb
  exact ⟨⟨b0, s144, b144, h46, b146, s151, by omega, b151, h53, b153⟩,
    ⟨⟨srest, pw⟩, b0, brest⟩, ⟨⟨r146b, pw⟩, b146, brest⟩, ⟨⟨r153, pw⟩, b153, brest⟩⟩

theorem tc_button_pressed_eq (st : State) (inp : LoopInput)
    (h : st.button_last_pressed ≤ inp.millis_144) (hn : inp.millis_144 < 2 ^ 32) :
    tc_button_pressed st inp
      = (decide (inp.tc_switch_button = LOW)
          && decide (inp.millis_144 > st.button_last_pressed + 300)) := by
  unfold tc_button_pressed
  rw [elapsed_of_le _ _ h hn]
  congr 1
  apply decide_eq_decide.mpr
  omega

theorem adc_button_pressed_eq (st : State) (inp : LoopInput)
    (h : st.button_last_pressed ≤ inp.millis_151) (hn : inp.millis_151 < 2 ^ 32) :
    adc_button_pressed st inp
      = (decide (inp.adc_switch_button = LOW)
          && decide (inp.millis_151 > st.button_last_pressed + 300)) := by
  unfold adc_button_pressed
  rw [elapsed_of_le _ _ h hn]
  congr 1
  apply decide_eq_decide.mpr
  omega

theorem run_tc_only : ∀ (inps : List LoopInput) (st st1 : State) (outs : List LoopOutput),
    run st inps = some (st1, outs) → clock_monotone st.button_last_pressed inps →
    (∀ inp ∈ inps, inp.adc_switch_button ≠ LOW) →
    outs.map (fun o => o.tc_pressed) = debounce_spec st.button_last_pressed (tc_button_readings inps)
      ∧ ∀ o ∈ outs, o.adc_pressed = false := by
  intro inps
  induction inps with
  | nil =>
    intro st st1 outs h _ _
    simp only [run, Option.some.injEq, Prod.mk.injEq] at h
    rw [← h.2]
    simp [tc_button_readings, debounce_spec]
  | cons inp inps ih =>
    intro st st2 outs h hmono hadc
    obtain ⟨s1, out, outs1, hl, hr, houts⟩ := run_cons st st2 inp inps outs h
    obtain ⟨⟨b0, s144, b144, h46, b146, s151, h4651, b151, h53, b153⟩, m0, m146, m153⟩ :=
      clock_monotone_cons _ inp inps hmono
    obtain ⟨_, _, htc, hadcp, hblp, _, _, _⟩ := loop_effect st s1 inp out hl
    have hnot : inp.adc_switch_button ≠ LOW := hadc inp (List.mem_cons_self inp inps)
    have hadc0 : out.adc_pressed = false := by
      rw [hadcp]
      unfold adc_button_pressed
      simp [hnot]
    rw [tc_button_pressed_eq st inp s144 b144] at htc
    rw [hadc0] at hblp
    simp only [Bool.false_eq_true, if_false] at hblp
    rw [stamp32_of_lt _ b146] at hblp
    subst houts
    by_cases hp : out.tc_pressed = true
    · rw [hp] at hblp htc
      simp only [if_true] at hblp
      have hcond : decide (inp.tc_switch_button = LOW) = true
          ∧ inp.millis_144 > st.button_last_pressed + 300 := by
        have := htc.symm
        simp only [Bool.and_eq_true, decide_eq_true_eq] at this
        exact ⟨by simpa using this.1, this.2⟩
      have ih1 := ih s1 st2 outs1 hr (by rw [hblp]; exact m146)
        (fun i hi => hadc i (List.mem_cons_of_mem inp hi))
      refine ⟨?_, ?_⟩
      · simp only [List.map_cons, tc_button_readings, debounce_spec, hcond, and_self, if_true, hp]
        rw [← hblp]
        exact congrArg _ ih1.1
      · intro o ho
        rcases List.mem_cons.mp ho with rfl | ho
        · exact hadc0
        · exact ih1.2 o ho
    · have hp0 : out.tc_pressed = false := by simpa using hp
      rw [hp0] at hblp htc
      simp only [Bool.false_eq_true, if_false] at hblp
      have hcond : ¬ (decide (inp.tc_switch_button = LOW) = true
          ∧ inp.millis_144 > st.button_last_pressed + 300) := by
        intro hc
        have := htc.symm
        simp [hc.1, hc.2] at this
      have ih1 := ih s1 st2 outs1 hr (by rw [hblp]; exact m0)
        (fun i hi => hadc i (List.mem_cons_of_mem inp hi))
      refine ⟨?_, ?_⟩
      · simp only [List.map_cons, tc_button_readings, debounce_spec, hcond, if_false, hp0]
        rw [← hblp]
        exact congrArg _ ih1.1
      · intro o ho
        rcases List.mem_cons.mp ho with rfl | ho
        · exact hadc0
        · exact ih1.2 o ho

theorem run_adc_only : ∀ (inps : List LoopInput) (st st1 : State) (outs : List LoopOutput),
    run st inps = some (st1, outs) → clock_monotone st.button_last_pressed inps →
    (∀ inp ∈ inps, inp.tc_switch_button ≠ LOW) →
    outs.map (fun o => o.adc_pressed)
        = debounce_spec st.button_last_pressed (adc_button_readings inps)
      ∧ ∀ o ∈ outs, o.tc_pressed = false := by
  intro inps
  induction inps with
  | nil =>
    intro st st1 outs h _ _
    simp only [run, Option.some.injEq, Prod.mk.injEq] at h
    rw [← h.2]
    simp [adc_button_readings, debounce_spec]
  | cons inp inps ih =>
    intro st st2 outs h hmono htcs
    obtain ⟨s1, out, outs1, hl, hr, houts⟩ := run_cons st st2 inp inps outs h
    obtain ⟨⟨b0, s144, b144, h46, b146, s151, h4651, b151, h53, b153⟩, m0, m146, m153⟩ :=
      clock_monotone_cons _ inp inps hmono
    obtain ⟨_, _, htc, hadcp, hblp, _, _, _⟩ := loop_effect st s1 inp out hl
    have hnot : inp.tc_switch_button ≠ LOW := htcs inp (List.mem_cons_self inp inps)
    have htc0 : tc_button_pressed st inp = false := by
      unfold tc_button_pressed
      simp [hnot]
    rw [htc0] at htc hadcp
    simp only [Bool.false_eq_true, if_false] at hadcp
    have hadc : out.adc_pressed = (decide (inp.adc_switch_button = LOW)
        && decide (inp.millis_151 > st.button_last_pressed + 300)) := by
      rw [hadcp]
      exact adc_button_pressed_eq _ inp s151 b151
    rw [htc] at hblp
    simp only [Bool.false_eq_true, if_false] at hblp
    rw [stamp32_of_lt _ b153] at hblp
    subst houts
    by_cases hp : out.adc_pressed = true
    · rw [hp] at hblp hadc
      simp only [if_true] at hblp
      have hcond : decide (inp.adc_switch_button = LOW) = true
          ∧ inp.millis_151 > st.button_last_pressed + 300 := by
        have := hadc.symm
        simp only [Bool.and_eq_true, decide_eq_true_eq] at this
        exact ⟨by simpa using this.1, this.2⟩
      have ih1 := ih s1 st2 outs1 hr (by rw [hblp]; exact m153)
        (fun i hi => htcs i (List.mem_cons_of_mem inp hi))
      refine ⟨?_, ?_⟩
      · simp only [List.map_cons, adc_button_readings, debounce_spec, hcond, and_self, if_true,
          hp]
        rw [← hblp]
        exact congrArg _ ih1.1
      · intro o ho
        rcases List.mem_cons.mp ho with rfl | ho
        · exact htc
        · exact ih1.2 o ho
    · have hp0 : out.adc_pressed = false := by simpa using hp
      rw [hp0] at hblp hadc
      simp only [Bool.false_eq_true, if_false] at hblp
      have hcond : ¬ (decide (inp.adc_switch_button = LOW) = true
          ∧ inp.millis_151 > st.button_last_pressed + 300) := by
        intro hc
        have := hadc.symm
        simp [hc.1, hc.2] at this
      have ih1 := ih s1 st2 outs1 hr (by rw [hblp]; exact m0)
        (fun i hi => htcs i (List.mem_cons_of_mem inp hi))
      refine ⟨?_, ?_⟩
      · simp only [List.map_cons, adc_button_readings, debounce_spec, hcond, if_false, hp0]
        rw [← hblp]
        exact congrArg _ ih1.1
      · intro o ho
        rcases List.mem_cons.mp ho with rfl | ho
        · exact htc
        · exact ih1.2 o ho

/-- Readings at which the pin is not LOW are not accepted and leave the time of the
last event as it is. -/
theorem debounce_spec_idle (last : Nat) (l : List (Bool × Nat × Nat)) :
    ∀ mid : List (Bool × Nat × Nat), (∀ e ∈ mid, e.1 = false) →
    debounce_spec last (mid ++ l) = List.replicate mid.length false ++ debounce_spec last l := by
  intro mid
  induction mid with
  | nil => intro _; simp
  | cons e mid ih =>
    intro h
    obtain ⟨low, check, stamp⟩ := e
    have hlow : low = false := h (low, check, stamp) (List.mem_cons_self _ mid)
    have ih1 := ih (fun e he => h e (List.mem_cons_of_mem _ he))
    subst hlow
    simp [debounce_spec, ih1, List.replicate_succ]

/-- Two LOW readings with only idle readings between them, the first one accepted:
the second is accepted if and only if its check comes more than 300 ms after the
time of the first. -/
theorem debounce_spec_two (last c1 s1 c2 s2 : Nat) (mid : List (Bool × Nat × Nat))
    (hmid : ∀ e ∈ mid, e.1 = false) (h1 : c1 > last + 300) :
    debounce_spec last ((true, c1, s1) :: (mid ++ [(true, c2, s2)]))
      = true :: (List.replicate mid.length false ++ [decide (c2 > s1 + 300)]) := by
  simp only [debounce_spec, h1, and_self, if_true]
  rw [debounce_spec_idle s1 [(true, c2, s2)] mid hmid]
  by_cases h2 : c2 > s1 + 300 <;> simp [debounce_spec, h2]

/-! ## Serial command interpreter: the claims -/

/-- C1 (code defect): a command line with the verb `FUNC` and a first argument `t` does
not reach the comparisons of lines 299 and 303 with defined behaviour.  The tokenizer
loop stores the pointer to `FUNC` at index 0, the pointer to `t` at index 1 and then
the null pointer that ends the loop at index 2 of `commandPointers`, which line 273
declares with 2 slots; the bounds-checked store fails and so does `listen_to_serial`.
This holds for every `t`, so for `'VOLT'` and `'TEMP'` too: the mode is not set. -/
theorem func_line_overflows_pointer_array :
    ∀ (st : State) (commandBuffer t : List Nat), commandBuffer.length = 51 →
      t ≠ [] → (∀ c ∈ t, c ≠ 0 ∧ c ≠ 10 ∧ c ≠ 44) → t.length ≤ 44 →
      pointer_writes (fill_buffer commandBuffer (lit_FUNC ++ 32 :: t ++ [10])).1
        = some [(0, some lit_FUNC), (1, some t), (2, none)]
      ∧ tokenize_checked (fill_buffer commandBuffer (lit_FUNC ++ 32 :: t ++ [10])).1 = none
      ∧ listen_to_serial st commandBuffer (58 :: (lit_FUNC ++ 32 :: t ++ [10])) = none := by
  intro st commandBuffer t hbuf hne ht hlen
  have hw := func_line_writes commandBuffer t [] hbuf hne ht hlen
  have h10 : 10 ∉ lit_FUNC ++ 32 :: t := by
    intro hmem
    rcases List.mem_append.mp hmem with h | h
    · revert h; decide
    · rcases List.mem_cons.mp h with h | h
      · omega
      · exact (ht 10 h).2.1 rfl
  have hl : (lit_FUNC ++ 32 :: t).length < 50 := by
    simp [lit_FUNC]; omega
  refine ⟨hw, ?_, ?_⟩
  · unfold tokenize_checked
    rw [hw]
    simp [store_checked]
  · rw [listen_to_serial_single st commandBuffer (lit_FUNC ++ 32 :: t) hbuf h10 hl]
    exact handle_func_line st commandBuffer t [] hbuf hne ht hlen

/-- C1 (witness): the line `FUNC 'TEMP'` received in the state after `setup`, whose mode
is `'U'`. -/
theorem func_line_overflows_pointer_array_witness :
    pointer_writes (fill_buffer (List.replicate 51 170) (lit_FUNC ++ 32 :: lit_TEMP ++ [10])).1
      = some [(0, some lit_FUNC), (1, some lit_TEMP), (2, none)]
    ∧ tokenize_checked (fill_buffer (List.replicate 51 170)
        (lit_FUNC ++ 32 :: lit_TEMP ++ [10])).1 = none
    ∧ listen_to_serial (setup 0 0).1 (List.replicate 51 170)
        (58 :: (lit_FUNC ++ 32 :: lit_TEMP ++ [10])) = none :=
  func_line_overflows_pointer_array (setup 0 0).1 (List.replicate 51 170) lit_TEMP
    (by decide) (by decide) (by decide) (by decide)

/-- C2: for every state, the command line `read?` writes exactly one line when the mode
is Voltage, whatever the error state of the thermocouple, and the value written is
the smoothed voltage divided by 1000 (1500 gives 1.5); when the mode is Temperature
it writes exactly one line with the smoothed temperature if no error is active and
nothing if one is.  In no case does it change the state.  The input is `:read?`
followed by a line feed; the last part is the command alone, whatever bytes follow
its line feed. -/
theorem read_replies_by_mode :
    (∀ (st : State) (commandBuffer : List Nat), commandBuffer.length = 51 →
        listen_to_serial st commandBuffer (58 :: (lit_read ++ [10]))
          = some (st,
              (if st.mode = 84 then (if !st.tc.hasError then [st.temp] else []) else [])
                ++ (if st.mode = 85 then [st.voltage / 1000] else [])))
    ∧ (∀ (st : State) (commandBuffer : List Nat), commandBuffer.length = 51 →
        st.mode = 85 →
        listen_to_serial st commandBuffer (58 :: (lit_read ++ [10]))
          = some (st, [st.voltage / 1000]))
    ∧ (∀ (st : State) (commandBuffer : List Nat), commandBuffer.length = 51 →
        st.mode = 85 → st.voltage = 1500 →
        listen_to_serial st commandBuffer (58 :: (lit_read ++ [10])) = some (st, [1.5]))
    ∧ (∀ (st : State) (commandBuffer : List Nat), commandBuffer.length = 51 →
        st.mode = 84 → st.tc.hasError = false →
        listen_to_serial st commandBuffer (58 :: (lit_read ++ [10])) = some (st, [st.temp]))
    ∧ (∀ (st : State) (commandBuffer : List Nat), commandBuffer.length = 51 →
        st.mode = 84 → st.tc.hasError = true →
        listen_to_serial st commandBuffer (58 :: (lit_read ++ [10])) = some (st, []))
    ∧ (∀ (st : State) (commandBuffer more : List Nat), commandBuffer.length = 51 →
        tokenize_checked (fill_buffer commandBuffer (lit_read ++ 10 :: more)).1
          = some [some lit_read, none]
        ∧ handle_command st commandBuffer (lit_read ++ 10 :: more)
          = some (st,
              (if st.mode = 84 then (if !st.tc.hasError then [st.temp] else []) else [])
                ++ (if st.mode = 85 then [st.voltage / 1000] else []))) := by
  have main : ∀ (st : State) (commandBuffer : List Nat), commandBuffer.length = 51 →
      listen_to_serial st commandBuffer (58 :: (lit_read ++ [10]))
        = some (st,
            (if st.mode = 84 then (if !st.tc.hasError then [st.temp] else []) else [])
              ++ (if st.mode = 85 then [st.voltage / 1000] else [])) := by
    intro st commandBuffer hbuf
    rw [listen_to_serial_single st commandBuffer lit_read hbuf (by decide) (by decide)]
    exact handle_read_line st commandBuffer [] hbuf
  refine ⟨main, ?_, ?_, ?_, ?_, ?_⟩
  · intro st commandBuffer hbuf hU
    rw [main st commandBuffer hbuf]; simp [hU]
  · intro st commandBuffer hbuf hU hv
    rw [main st commandBuffer hbuf]; simp [hU, hv]; norm_num
  · intro st commandBuffer hbuf hT he
    rw [main st commandBuffer hbuf]; simp [hT, he]
  · intro st commandBuffer hbuf hT he
    rw [main st commandBuffer hbuf]; simp [hT, he]
  · intro st commandBuffer more hbuf
    refine ⟨?_, handle_read_line st commandBuffer more hbuf⟩
    rw [fill_buffer_line commandBuffer lit_read more hbuf (by decide) (by decide)]
    exact tokenize_checked_verb_only lit_read _ (by decide) (by decide)
      (le_of_eq (filled_buffer_length commandBuffer lit_read hbuf (by decide)))

/-- C2 (witness): the input `:read?`, line feed, in mode `'U'` with the voltage at
1500. -/
theorem read_replies_by_mode_witness :
    ({ (setup 0 0).1 with voltage := 1500 } : State).mode = 85
    ∧ listen_to_serial { (setup 0 0).1 with voltage := 1500 } (List.replicate 51 170)
        (58 :: (lit_read ++ [10]))
      = some ({ (setup 0 0).1 with voltage := 1500 }, [1.5]) :=
  ⟨rfl,
   read_replies_by_mode.2.2.1 { (setup 0 0).1 with voltage := 1500 } (List.replicate 51 170)
      (by decide) rfl rfl⟩

/-- C3 (amended): for every command line that is a verb alone (a non-empty line of
fewer than 50 bytes without blank, NUL and line feed, ended by a line feed) and
whose verb neither begins with `FUNC` nor begins with `read?`, `listen_to_serial`
writes nothing and leaves the whole state unchanged; in particular the input
`:garbage` followed by a line feed produces no output and no state change.  The
array `commandBuffer` has 51 bytes, whatever they held before. -/
theorem other_verbs_are_ignored :
    (∀ (st : State) (commandBuffer verb : List Nat), commandBuffer.length = 51 →
        verb ≠ [] → (∀ c ∈ verb, c ≠ 32 ∧ c ≠ 0 ∧ c ≠ 10) → verb.length < 50 →
        verb.take 4 ≠ lit_FUNC → verb.take 5 ≠ lit_read →
        listen_to_serial st commandBuffer (58 :: (verb ++ [10])) = some (st, []))
    ∧ (∀ (st : State) (commandBuffer : List Nat), commandBuffer.length = 51 →
        listen_to_serial st commandBuffer (58 :: (line_garbage ++ [10])) = some (st, [])) := by
  have main : ∀ (st : State) (commandBuffer verb : List Nat), commandBuffer.length = 51 →
      verb ≠ [] → (∀ c ∈ verb, c ≠ 32 ∧ c ≠ 0 ∧ c ≠ 10) → verb.length < 50 →
      verb.take 4 ≠ lit_FUNC → verb.take 5 ≠ lit_read →
      listen_to_serial st commandBuffer (58 :: (verb ++ [10])) = some (st, []) := by
    intro st commandBuffer verb hbuf hne hv hlen hF hR
    have h10 : 10 ∉ verb := fun h => (hv 10 h).2.2 rfl
    rw [listen_to_serial_single st commandBuffer verb hbuf h10 hlen,
      handle_verb_line st commandBuffer verb [] hbuf hne hv hlen,
      dispatch_verb_only st verb hF, if_neg hR]
  exact ⟨main, fun st commandBuffer hbuf =>
    main st commandBuffer line_garbage hbuf (by decide) (by decide) (by decide) (by decide)
      (by decide)⟩

/-- C3 (witness): the line `garbage`, from the state after `setup`. -/
theorem other_verbs_are_ignored_witness :
    listen_to_serial (setup 0 0).1 (List.replicate 51 170) (58 :: (line_garbage ++ [10]))
      = some ((setup 0 0).1, [])
    ∧ listen_to_serial (setup 0 0).1 (List.replicate 51 170) [58, 120, 10]
      = some ((setup 0 0).1, []) :=
  ⟨other_verbs_are_ignored.2 (setup 0 0).1 (List.replicate 51 170) (by decide),
   other_verbs_are_ignored.1 (setup 0 0).1 (List.replicate 51 170) [120] (by decide)
      (by decide) (by decide) (by decide) (by decide) (by decide)⟩

/-- C3 (counterexample): the verb `read?x` is neither `FUNC` nor `read?`, yet the input
`:read?x` followed by a line feed, received after `setup`, is answered with one
line; the pointers stay within the 2 slots of the array. -/
theorem longer_verb_is_obeyed :
    [114, 101, 97, 100, 63, 120] ≠ lit_FUNC ∧ [114, 101, 97, 100, 63, 120] ≠ lit_read
    ∧ tokenize_checked (fill_buffer (List.replicate 51 170)
        [114, 101, 97, 100, 63, 120, 10]).1
      = some [some [114, 101, 97, 100, 63, 120], none]
    ∧ (listen_to_serial (setup 0 0).1 (List.replicate 51 170)
        [58, 114, 101, 97, 100, 63, 120, 10]).map (fun r => r.2.length)
      = some 1 := by
  refine ⟨by decide, by decide, by decide, by decide⟩

/-- C4 (code defect): a command line with fewer tokens than its verb expects makes the
dispatcher read through a null pointer.  For the line `FUNC` slot 1 of
`commandPointers` holds the null pointer and line 299 passes it to `strncmp`; for the
empty line slot 0 holds the null pointer and line 297 passes it to `strncmp`.  In
both cases the failure branch of the embedding is reached. -/
theorem missing_token_is_dereferenced (st : State) (commandBuffer : List Nat)
    (hbuf : commandBuffer.length = 51) :
    pointer_writes (fill_buffer commandBuffer (lit_FUNC ++ [10])).1
      = some [(0, some lit_FUNC), (1, none)]
    ∧ listen_to_serial st commandBuffer (58 :: (lit_FUNC ++ [10])) = none
    ∧ pointer_writes (fill_buffer commandBuffer ([] ++ [10])).1 = some [(0, none)]
    ∧ listen_to_serial st commandBuffer (58 :: ([] ++ [10])) = none := by
  have hfill := fill_buffer_line commandBuffer lit_FUNC [] hbuf (by decide) (by decide)
  have htok := pointer_values_verb_only lit_FUNC
    (List.replicate (49 - lit_FUNC.length) 0 ++ commandBuffer.drop 50) (by decide) (by decide)
  have hlen := filled_buffer_length commandBuffer lit_FUNC hbuf (by decide)
  have hfill0 := fill_buffer_line commandBuffer [] [] hbuf (by decide) (by decide)
  have htok0 : pointer_values ([] ++ 0 :: (List.replicate (49 - ([] : List Nat).length) 0
      ++ commandBuffer.drop 50)) = some [none] := by
    simp [pointer_values_eq, strtok_nul]
  have hlen0 := filled_buffer_length commandBuffer [] hbuf (by decide)
  have hw : pointer_writes (fill_buffer commandBuffer (lit_FUNC ++ [10])).1
      = some [(0, some lit_FUNC), (1, none)] := by
    rw [hfill, pointer_writes_eq _ (le_of_eq hlen), htok]
    rfl
  have hw0 : pointer_writes (fill_buffer commandBuffer ([] ++ [10])).1 = some [(0, none)] := by
    rw [hfill0, pointer_writes_eq _ (le_of_eq hlen0), htok0]
    rfl
  refine ⟨hw, ?_, hw0, ?_⟩
  · rw [listen_to_serial_single st commandBuffer lit_FUNC hbuf (by decide) (by decide),
      handle_verb_line st commandBuffer lit_FUNC [] hbuf (by decide) (by decide) (by decide),
      dispatch_func_verb_only st lit_FUNC rfl]
  · rw [listen_to_serial_single st commandBuffer [] hbuf (by decide) (by decide)]
    unfold handle_command tokenize_checked
    rw [hw0]
    exact dispatch_null st [none, none] rfl

/-- C4 (witness): the inputs `:FUNC` and `:`, each followed by a line feed, from the
state after `setup`. -/
theorem missing_token_is_dereferenced_witness :
    listen_to_serial (setup 0 0).1 (List.replicate 51 170) [58, 70, 85, 78, 67, 10] = none
    ∧ listen_to_serial (setup 0 0).1 (List.replicate 51 170) [58, 10] = none :=
  ⟨(missing_token_is_dereferenced (setup 0 0).1 (List.replicate 51 170) (by decide)).2.1,
   (missing_token_is_dereferenced (setup 0 0).1 (List.replicate 51 170) (by decide)).2.2.2⟩

/-- C5 (amended): for every command line of the form `v`, blank, `rest` that is followed
by a NUL within the 51 bytes of `commandBuffer`, where `v` is non-empty and contains
no blank and no NUL and `rest` contains no NUL, the tokenizer stores `v` as the verb
in slot 0 and then, in slot 1, the first non-empty piece obtained by splitting `rest`
on commas as the first argument (blanks inside it stay), or the null pointer when
`rest` has no such piece (no argument); a non-empty line with no blank and no NUL,
followed by a NUL within the array, gives the whole line as the verb and no
argument.  So `FUNC 'VOLT'` puts the verb `FUNC` in slot 0 and the argument `'VOLT'`
in slot 1.  The stores that follow the one to slot 1 are not part of the statement;
`tail` is what the array holds after the NUL that ends the line. -/
theorem tokenizer_verb_then_comma_pieces :
    (∀ v rest tail : List Nat, v ≠ [] → (∀ c ∈ v, c ≠ 32 ∧ c ≠ 0) → (∀ c ∈ rest, c ≠ 0) →
        (v ++ 32 :: rest ++ 0 :: tail).length ≤ 51 →
        (pointer_writes (v ++ 32 :: rest ++ 0 :: tail)).map (List.take 2)
          = some [(0, some v), (1, (comma_pieces rest).head?)]
        ∧ (comma_pieces rest = [] →
            tokenize_checked (v ++ 32 :: rest ++ 0 :: tail) = some [some v, none]))
    ∧ (∀ line tail : List Nat, line ≠ [] → (∀ c ∈ line, c ≠ 32 ∧ c ≠ 0) →
        (line ++ 0 :: tail).length ≤ 51 →
        pointer_writes (line ++ 0 :: tail) = some [(0, some line), (1, none)]
        ∧ tokenize_checked (line ++ 0 :: tail) = some [some line, none])
    ∧ (∀ commandBuffer : List Nat, commandBuffer.length = 51 →
        (pointer_writes (fill_buffer commandBuffer (lit_FUNC ++ 32 :: lit_VOLT ++ [10])).1).map
            (List.take 2)
          = some [(0, some lit_FUNC), (1, some lit_VOLT)]) := by
  refine ⟨fun v rest tail hne hv hrest hlen => ?_, fun line tail hne hline hlen => ?_,
    fun commandBuffer hbuf => ?_⟩
  · have htok := pointer_values_verb_args v rest tail hne hv hrest
    refine ⟨?_, fun hnil => ?_⟩
    · rw [pointer_writes_eq _ hlen, htok]
      cases comma_pieces rest with
      | nil => rfl
      | cons p ps => rfl
    · rw [tokenize_checked_eq _ hlen, htok, hnil]
      rfl
  · refine ⟨?_, tokenize_checked_verb_only line tail hne hline hlen⟩
    rw [pointer_writes_eq _ hlen, pointer_values_verb_only line tail hne hline]
    rfl
  · rw [func_line_writes commandBuffer lit_VOLT [] hbuf (by decide) (by decide) (by decide)]
    rfl

/-- C5 (witness): the line `FUNC a b`, the line `read? ,,` and the line `read?`, each
followed by NUL and one more byte, and the line `FUNC 'VOLT'` as it is received. -/
theorem tokenizer_verb_then_comma_pieces_witness :
    (pointer_writes (lit_FUNC ++ 32 :: [97, 32, 98] ++ 0 :: [170])).map (List.take 2)
      = some [(0, some lit_FUNC), (1, some [97, 32, 98])]
    ∧ tokenize_checked (lit_read ++ 32 :: [44, 44] ++ 0 :: [170]) = some [some lit_read, none]
    ∧ tokenize_checked (lit_read ++ 0 :: [170]) = some [some lit_read, none]
    ∧ (pointer_writes (fill_buffer (List.replicate 51 170)
          (lit_FUNC ++ 32 :: lit_VOLT ++ [10])).1).map (List.take 2)
      = some [(0, some lit_FUNC), (1, some lit_VOLT)] :=
  ⟨(tokenizer_verb_then_comma_pieces.1 lit_FUNC [97, 32, 98] [170]
      (by decide) (by decide) (by decide) (by decide)).1,
   (tokenizer_verb_then_comma_pieces.1 lit_read [44, 44] [170]
      (by decide) (by decide) (by decide) (by decide)).2 (by decide),
   (tokenizer_verb_then_comma_pieces.2.1 lit_read [170] (by decide) (by decide)
      (by decide)).2,
   tokenizer_verb_then_comma_pieces.2.2 (List.replicate 51 170) (by decide)⟩

/-- C5 (counterexample): the empty line has no blank, yet the tokenizer stores the null
pointer in slot 0, no verb; in the line `a`, blank, NUL, `b` the verb `a` has no blank
and no NUL, yet there is no argument, while the rest has the one piece NUL, `b`
between commas; and the line `a`, NUL, `b` has no blank, yet the verb is `a`, not
the whole line.  In all three the stores stay within the 2 slots. -/
theorem tokenizer_empty_line_and_nul :
    pointer_writes (fill_buffer (List.replicate 51 170) [10]).1 = some [(0, none)]
    ∧ tokenize_checked (fill_buffer (List.replicate 51 170) [97, 32, 0, 98, 10]).1
      = some [some [97], none]
    ∧ comma_pieces [0, 98] = [[0, 98]]
    ∧ tokenize_checked (fill_buffer (List.replicate 51 170) [97, 0, 98, 10]).1
      = some [some [97], none] := by
  refine ⟨by decide, by decide, by decide, by decide⟩

/-- C6 (code defect): when the start character is followed by 50 bytes without a line
feed, exactly those 50 bytes are consumed, but line 284 clears only the indices 0 to
49 of the 51-byte array, so index 50 keeps the byte it held before the call.  The
array then holds a terminated string only if one of the 50 bytes is NUL or that old
byte happens to be NUL; otherwise the tokenizer scans past the end of the array. -/
theorem long_line_leaves_buffer_unterminated (st : State)
    (commandBuffer bytes more : List Nat)
    (hbuf : commandBuffer.length = 51) (hlen : bytes.length = 50) (h10 : 10 ∉ bytes) :
    fill_buffer commandBuffer (bytes ++ more) = (bytes ++ commandBuffer.drop 50, more)
    ∧ (fill_buffer commandBuffer (bytes ++ more)).1[50]? = commandBuffer[50]?
    ∧ ((pointer_writes (fill_buffer commandBuffer (bytes ++ more)).1).isSome = true
        ↔ (0 ∈ bytes ∨ commandBuffer[50]? = some 0))
    ∧ (0 ∉ bytes → commandBuffer[50]? ≠ some 0 →
        listen_to_serial st commandBuffer (58 :: (bytes ++ more)) = none) := by
  have hfill := fill_buffer_full commandBuffer bytes more hbuf h10 hlen
  have hget : (bytes ++ commandBuffer.drop 50)[50]? = commandBuffer[50]? := by
    rw [List.getElem?_append_right (by omega), hlen]
    simp
  obtain ⟨x, hx⟩ : ∃ x, commandBuffer.drop 50 = [x] := by
    have hl : (commandBuffer.drop 50).length = 1 := by simp [hbuf]
    match hd : commandBuffer.drop 50, hl with
    | [x], _ => exact ⟨x, rfl⟩
  have hlast : commandBuffer[50]? = some x := by
    rw [← List.head?_drop, hx]
    rfl
  have hl51 : (bytes ++ commandBuffer.drop 50).length ≤ 51 := by
    rw [hx]; simp [hlen]
  have hiff : (pointer_values (bytes ++ commandBuffer.drop 50)).isSome = true
      ↔ (0 ∈ bytes ∨ commandBuffer[50]? = some 0) := by
    rw [pointer_values_isSome_iff, hlast, hx]
    simp [eq_comm]
  have hiffw : (pointer_writes (bytes ++ commandBuffer.drop 50)).isSome = true
      ↔ (0 ∈ bytes ∨ commandBuffer[50]? = some 0) := by
    rw [← hiff, pointer_writes_eq _ hl51]
    cases pointer_values (bytes ++ commandBuffer.drop 50) <;> simp
  refine ⟨hfill, by rw [hfill]; exact hget, by rw [hfill]; exact hiffw, fun h0 hne => ?_⟩
  have hnone : pointer_writes (bytes ++ commandBuffer.drop 50) = none := by
    cases ht : pointer_writes (bytes ++ commandBuffer.drop 50) with
    | none => rfl
    | some cp =>
      have := hiffw.mp (by rw [ht]; rfl)
      rcases this with h | h
      · exact absurd h h0
      · exact absurd h hne
  unfold listen_to_serial
  simp [listen_loop, handle_command, tokenize_checked, hfill, hnone]

/-- C6 (witness): 50 bytes `A` after the start character, the array holding `A` at
index 50 before the call. -/
theorem long_line_leaves_buffer_unterminated_witness :
    (fill_buffer (List.replicate 51 65) (List.replicate 50 65 ++ [])).1[50]? = some 65
    ∧ listen_to_serial (setup 0 0).1 (List.replicate 51 65)
        (58 :: (List.replicate 50 65 ++ [])) = none :=
  ⟨((long_line_leaves_buffer_unterminated (setup 0 0).1 (List.replicate 51 65)
      (List.replicate 50 65) [] (by decide) (by decide) (by decide)).2.1).trans (by decide),
   (long_line_leaves_buffer_unterminated (setup 0 0).1 (List.replicate 51 65)
      (List.replicate 50 65) [] (by decide) (by decide) (by decide)).2.2.2
      (by decide) (by decide)⟩

/-! ## Signal conditioning: the claims -/

/-- C7: for every prior smoothed temperature and every finite sequence of raw samples,
the temperature after the iterations of `loop` that take those samples is given by
the recurrence `t_n = 0.5 * t_(n-1) + 0.5 * r_n` from the prior value, equivalently
by `t / 2 ^ N` plus the sum of `r_k / 2 ^ (N - k + 1)` (the samples are counted from 0
below, so the exponent reads `N - k`).  A run returns whenever the table indices of
the starting state are valid and the serial bytes are handled.  For the raw samples
100, 0, 100 from 0 the successive values are 50, 25 and 62.5. -/
theorem temperature_follows_recurrence :
    (∀ (st st1 : State) (inps : List LoopInput) (outs : List LoopOutput),
        run st inps = some (st1, outs) →
        st1.temp = ema_recurrence st.temp (raw_samples inps)
        ∧ st1.temp = st.temp / 2 ^ inps.length
            + ∑ k in Finset.range inps.length,
                (raw_samples inps).getD k 0 / 2 ^ (inps.length - k))
    ∧ (∀ (st : State) (inps : List LoopInput), st.valid →
        (∀ inp ∈ inps, serial_handled inp) → ∃ st1 outs, run st inps = some (st1, outs))
    ∧ (∀ (st s1 s2 s3 : State) (i1 i2 i3 : LoopInput) (o1 o2 o3 : LoopOutput),
        st.temp = 0 → i1.tc_sample.external = 100 → i2.tc_sample.external = 0 →
        i3.tc_sample.external = 100 →
        loop st i1 = some (s1, o1) → loop s1 i2 = some (s2, o2) → loop s2 i3 = some (s3, o3) →
        s1.temp = 50 ∧ s2.temp = 25 ∧ s3.temp = 62.5) := by
  refine ⟨fun st st1 inps outs h => ?_, fun st inps hv hs => run_total inps st hv hs, ?_⟩
  · have h1 := run_temp inps st st1 outs h
    refine ⟨h1, ?_⟩
    rw [h1, ema_recurrence_closed]
    simp [raw_samples]
  · intro st s1 s2 s3 i1 i2 i3 o1 o2 o3 h0 e1 e2 e3 l1 l2 l3
    have t1 := (loop_effect st s1 i1 o1 l1).1
    have t2 := (loop_effect s1 s2 i2 o2 l2).1
    have t3 := (loop_effect s2 s3 i3 o3 l3).1
    rw [h0, e1] at t1
    have v1 : s1.temp = 50 := by rw [t1]; norm_num
    rw [v1, e2] at t2
    have v2 : s2.temp = 25 := by rw [t2]; norm_num
    rw [v2, e3] at t3
    have v3 : s3.temp = 62.5 := by rw [t3]; norm_num
    exact ⟨v1, v2, v3⟩

/-- C7 (witness): three quiet iterations after `setup` with the raw samples 100, 0,
100. -/
theorem temperature_follows_recurrence_witness :
    ∃ st1 outs, run (setup 0 0).1 [quiet_input 100 10, quiet_input 0 20, quiet_input 100 30]
        = some (st1, outs) ∧ st1.temp = 62.5 := by
  obtain ⟨st1, outs, h⟩ := temperature_follows_recurrence.2.1 (setup 0 0).1
    [quiet_input 100 10, quiet_input 0 20, quiet_input 100 30]
    (by unfold State.valid; decide) (by unfold serial_handled; decide)
  refine ⟨st1, outs, h, ?_⟩
  rw [(temperature_follows_recurrence.1 _ _ _ _ h).1]
  norm_num [ema_recurrence, raw_samples, quiet_input, setup]

theorem adc_result_eq (hiByte loByte : Nat) :
    adc_result hiByte loByte = int16 (256 * (hiByte % 256) + loByte % 256) := by
  unfold adc_result
  have hlt : loByte % 256 < 2 ^ 8 := by omega
  have h := Nat.mul_add_lt_is_or hlt (hiByte % 256)
  rw [Nat.shiftLeft_eq, Nat.mul_comm, ← h]

/-- C8 (amended): for every signed 16-bit ADC code, the unfiltered term that `read_adc`
adds to `voltage * 0.999` is `2048 * code / 32768 * 0.001` (over exact rationals); for
the code 16384 this term equals 1.024.  Every signed 16-bit code is the `result` of
some pair of response bytes. -/
theorem adc_voltage_term :
    (∀ (st : State) (hiByte loByte : Nat), st.adc_chan < 2 →
        ∃ st1 control, read_adc st hiByte loByte = some (st1, control)
          ∧ st1.voltage - st.voltage * 0.999
              = 2048 * (adc_result hiByte loByte : ℚ) / 32768 * 0.001
          ∧ (adc_result hiByte loByte = 16384 → st1.voltage - st.voltage * 0.999 = 1.024))
    ∧ (∀ code : Int, -32768 ≤ code → code ≤ 32767 →
        ∃ hiByte loByte, hiByte < 256 ∧ loByte < 256 ∧ adc_result hiByte loByte = code) := by
  constructor
  · intro st hiByte loByte hv
    obtain ⟨control, h⟩ := read_adc_valid st hiByte loByte hv
    refine ⟨_, control, h, ?_, ?_⟩
    · simp
    · intro hc
      simp only [hc]
      norm_num
  · intro code hlo hhi
    refine ⟨(code % 65536).toNat / 256, (code % 65536).toNat % 256, by omega, by omega, ?_⟩
    rw [adc_result_eq]
    unfold int16
    split <;> omega

/-- C8 (witness): the response bytes `0x40`, `0x00` after `setup`, and the code 16384. -/
theorem adc_voltage_term_witness :
    (∃ st1 control, read_adc (setup 0 0).1 64 0 = some (st1, control)
      ∧ st1.voltage - (setup 0 0).1.voltage * 0.999 = 1.024)
    ∧ ∃ hiByte loByte, hiByte < 256 ∧ loByte < 256 ∧ adc_result hiByte loByte = 16384 := by
  obtain ⟨st1, control, h, _, h3⟩ := adc_voltage_term.1 (setup 0 0).1 64 0 (by decide)
  exact ⟨⟨st1, control, h, h3 (by decide)⟩, adc_voltage_term.2 16384 (by decide) (by decide)⟩

/-- C8 (counterexample): the response bytes `0x40`, `0x00` give the code 16384, and the
term added to `voltage * 0.999` is then 1.024, not 0.001. -/
theorem adc_voltage_term_at_16384 :
    adc_result 64 0 = 16384
    ∧ (read_adc (setup 0 0).1 64 0).map (fun r => r.1.voltage - (setup 0 0).1.voltage * 0.999)
        = some 1.024
    ∧ (1.024 : ℚ) ≠ 0.001 := by
  refine ⟨by decide, ?_, by norm_num⟩
  have h16 : adc_result 64 0 = 16384 := by decide
  simp only [read_adc, setup, adc_controlByte, List.getElem?_cons_zero, Option.map_some', h16]
  norm_num

/-! ## Debouncing: the claims -/

/-- C9: in any run of `loop` in which only one of the two buttons is ever read LOW, with
non-decreasing clock readings, a LOW reading of that button is accepted if and only
if more than 300 ms have passed since the previous accepted event, or since the end
of `setup` when there is none: the accepted readings are those of `debounce_spec`
started at `button_last_pressed`, which `setup` sets to its clock reading.  Hence of
two presses, the first accepted and the second checked within 300 ms of it, exactly
one is accepted, and a second press checked 301 ms or more after the first is
accepted too.  A run returns whenever the table indices of the starting state are
valid and the serial bytes are handled. -/
theorem single_button_debounce :
    (∀ (st st1 : State) (inps : List LoopInput) (outs : List LoopOutput),
        run st inps = some (st1, outs) → clock_monotone st.button_last_pressed inps →
        (∀ inp ∈ inps, inp.adc_switch_button ≠ LOW) →
        outs.map (fun o => o.tc_pressed)
            = debounce_spec st.button_last_pressed (tc_button_readings inps)
          ∧ ∀ o ∈ outs, o.adc_pressed = false)
    ∧ (∀ (st st1 : State) (inps : List LoopInput) (outs : List LoopOutput),
        run st inps = some (st1, outs) → clock_monotone st.button_last_pressed inps →
        (∀ inp ∈ inps, inp.tc_switch_button ≠ LOW) →
        outs.map (fun o => o.adc_pressed)
            = debounce_spec st.button_last_pressed (adc_button_readings inps)
          ∧ ∀ o ∈ outs, o.tc_pressed = false)
    ∧ (∀ (st st1 : State) (i1 i2 : LoopInput) (mid : List LoopInput) (outs : List LoopOutput),
        run st (i1 :: (mid ++ [i2])) = some (st1, outs) →
        clock_monotone st.button_last_pressed (i1 :: (mid ++ [i2])) →
        (∀ inp ∈ i1 :: (mid ++ [i2]), inp.adc_switch_button ≠ LOW) →
        i1.tc_switch_button = LOW → i2.tc_switch_button = LOW →
        (∀ inp ∈ mid, inp.tc_switch_button ≠ LOW) →
        i1.millis_144 > st.button_last_pressed + 300 →
        (i2.millis_144 ≤ i1.millis_146 + 300 →
          outs.map (fun o => o.tc_pressed)
            = true :: (List.replicate mid.length false ++ [false]))
        ∧ (i1.millis_146 + 301 ≤ i2.millis_144 →
          outs.map (fun o => o.tc_pressed)
            = true :: (List.replicate mid.length false ++ [true])))
    ∧ (∀ (st st1 : State) (i1 i2 : LoopInput) (mid : List LoopInput) (outs : List LoopOutput),
        run st (i1 :: (mid ++ [i2])) = some (st1, outs) →
        clock_monotone st.button_last_pressed (i1 :: (mid ++ [i2])) →
        (∀ inp ∈ i1 :: (mid ++ [i2]), inp.tc_switch_button ≠ LOW) →
        i1.adc_switch_button = LOW → i2.adc_switch_button = LOW →
        (∀ inp ∈ mid, inp.adc_switch_button ≠ LOW) →
        i1.millis_151 > st.button_last_pressed + 300 →
        (i2.millis_151 ≤ i1.millis_153 + 300 →
          outs.map (fun o => o.adc_pressed)
            = true :: (List.replicate mid.length false ++ [false]))
        ∧ (i1.millis_153 + 301 ≤ i2.millis_151 →
          outs.map (fun o => o.adc_pressed)
            = true :: (List.replicate mid.length false ++ [true])))
    ∧ (∀ millis_123 millis_124 : Nat, millis_123 < 2 ^ 32 →
        (setup millis_123 millis_124).1.button_last_pressed = millis_123
          ∧ (setup millis_123 millis_124).1.valid)
    ∧ (∀ (st : State) (inps : List LoopInput), st.valid →
        (∀ inp ∈ inps, serial_handled inp) → ∃ st1 outs, run st inps = some (st1, outs)) := by
  refine ⟨fun st st1 inps outs h hm ha => run_tc_only inps st st1 outs h hm ha,
    fun st st1 inps outs h hm ha => run_adc_only inps st st1 outs h hm ha, ?_, ?_, ?_,
    fun st inps hv hs => run_total inps st hv hs⟩
  · intro st st1 i1 i2 mid outs h hm ha l1 l2 hmid h1
    have hspec := (run_tc_only _ st st1 outs h hm ha).1
    have hread : tc_button_readings (i1 :: (mid ++ [i2]))
        = (true, i1.millis_144, i1.millis_146)
            :: (tc_button_readings mid ++ [(true, i2.millis_144, i2.millis_146)]) := by
      simp [tc_button_readings, l1, l2]
    have hidle : ∀ e ∈ tc_button_readings mid, e.1 = false := by
      intro e he
      simp only [tc_button_readings, List.mem_map] at he
      obtain ⟨inp, hin, rfl⟩ := he
      simpa using hmid inp hin
    have hlen : (tc_button_readings mid).length = mid.length := by simp [tc_button_readings]
    rw [hread, debounce_spec_two _ _ _ _ _ _ hidle h1, hlen] at hspec
    refine ⟨fun hle => ?_, fun hge => ?_⟩
    · rw [hspec]
      have : ¬ (i2.millis_144 > i1.millis_146 + 300) := by omega
      simp [this]
    · rw [hspec]
      have : i2.millis_144 > i1.millis_146 + 300 := by omega
      simp [this]
  · intro st st1 i1 i2 mid outs h hm ha l1 l2 hmid h1
    have hspec := (run_adc_only _ st st1 outs h hm ha).1
    have hread : adc_button_readings (i1 :: (mid ++ [i2]))
        = (true, i1.millis_151, i1.millis_153)
            :: (adc_button_readings mid ++ [(true, i2.millis_151, i2.millis_153)]) := by
      simp [adc_button_readings, l1, l2]
    have hidle : ∀ e ∈ adc_button_readings mid, e.1 = false := by
      intro e he
      simp only [adc_button_readings, List.mem_map] at he
      obtain ⟨inp, hin, rfl⟩ := he
      simpa using hmid inp hin
    have hlen : (adc_button_readings mid).length = mid.length := by simp [adc_button_readings]
    rw [hread, debounce_spec_two _ _ _ _ _ _ hidle h1, hlen] at hspec
    refine ⟨fun hle => ?_, fun hge => ?_⟩
    · rw [hspec]
      have : ¬ (i2.millis_151 > i1.millis_153 + 300) := by omega
      simp [this]
    · rw [hspec]
      have : i2.millis_151 > i1.millis_153 + 300 := by omega
      simp [this]
  · intro millis_123 millis_124 h
    refine ⟨stamp32_of_lt _ h, ?_⟩
    exact ⟨show (0 : Nat) < 8 by omega, show (0 : Nat) < 2 by omega⟩

/-- C9 (witness): after `setup` at 0 the thermocouple button reads LOW at 1000, at 1200
and at 1301: the first and the third reading are accepted. -/
theorem single_button_debounce_witness :
    ∃ st1 outs,
      run (setup 0 0).1 [tc_press_input 1000, tc_press_input 1200, tc_press_input 1301]
        = some (st1, outs)
      ∧ outs.map (fun o => o.tc_pressed) = [true, false, true] := by
  obtain ⟨st1, outs, h⟩ := single_button_debounce.2.2.2.2.2 (setup 0 0).1
    [tc_press_input 1000, tc_press_input 1200, tc_press_input 1301]
    (by unfold State.valid; decide) (by unfold serial_handled; decide)
  refine ⟨st1, outs, h, ?_⟩
  rw [(single_button_debounce.1 (setup 0 0).1 st1 _ outs h
    (by unfold clock_monotone; decide) (by decide)).1]
  decide

/-- C10 (amended): the two buttons share the one timestamp `button_last_pressed`: the
channel button is checked against the time of the last accepted press of either
button, the press that the thermocouple button may have had in the same iteration
included.  In particular, when both buttons read LOW in the same iteration more than
300 ms after the last accepted event and the channel check comes at most 300 ms
after the stamp of the thermocouple press, the thermocouple type advances and the
ADC channel does not. -/
theorem buttons_share_timestamp (st st1 : State) (inp : LoopInput) (out : LoopOutput)
    (h : loop st inp = some (st1, out)) :
    out.tc_pressed = (decide (inp.tc_switch_button = LOW)
        && decide (elapsed inp.millis_144 st.button_last_pressed > 300))
    ∧ out.adc_pressed = (decide (inp.adc_switch_button = LOW)
        && decide (elapsed inp.millis_151
            (if out.tc_pressed then stamp32 inp.millis_146 else st.button_last_pressed) > 300))
    ∧ (inp.tc_switch_button = LOW → inp.adc_switch_button = LOW →
        elapsed inp.millis_144 st.button_last_pressed > 300 →
        elapsed inp.millis_151 (stamp32 inp.millis_146) ≤ 300 →
        out.tc_pressed = true ∧ out.adc_pressed = false
        ∧ st1.tc_type = (if (st.tc_type + 1) % 256 > 7 then 0 else (st.tc_type + 1) % 256)
        ∧ st1.adc_chan = st.adc_chan
        ∧ st1.button_last_pressed = stamp32 inp.millis_146) := by
  obtain ⟨_, _, htc, hadc, hblp, htype, hchan, _⟩ := loop_effect st st1 inp out h
  have hadc2 : out.adc_pressed = (decide (inp.adc_switch_button = LOW)
        && decide (elapsed inp.millis_151
            (if out.tc_pressed then stamp32 inp.millis_146 else st.button_last_pressed) > 300)) := by
    rw [hadc, htc]
    rfl
  refine ⟨htc, hadc2, fun l1 l2 e1 e2 => ?_⟩
  have ht : out.tc_pressed = true := by
    rw [htc]
    unfold tc_button_pressed
    simp [l1, e1]
  have ha : out.adc_pressed = false := by
    rw [hadc2, ht]
    have : ¬ (elapsed inp.millis_151 (stamp32 inp.millis_146) > 300) := by omega
    simp [this]
  rw [ht] at htype hblp
  rw [ha] at hchan hblp
  exact ⟨ht, ha, by simpa using htype, by simpa using hchan, by simpa using hblp⟩

/-- C10 (witness): both buttons LOW at 1000, after `setup` at 0. -/
theorem buttons_share_timestamp_witness :
    ∃ st1 out, loop (setup 0 0).1 (both_press_input 1000) = some (st1, out)
      ∧ out.tc_pressed = true ∧ out.adc_pressed = false
      ∧ st1.tc_type = 1 ∧ st1.adc_chan = 0 ∧ st1.button_last_pressed = 1000 := by
  obtain ⟨st1, out, h⟩ := loop_total (setup 0 0).1 (both_press_input 1000)
    (by unfold State.valid; decide) (by unfold serial_handled; decide)
  obtain ⟨h1, h2, h3, h4, h5⟩ := (buttons_share_timestamp (setup 0 0).1 st1
    (both_press_input 1000) out h).2.2 rfl rfl (by decide) (by decide)
  exact ⟨st1, out, h, h1, h2, h3, h4, h5⟩

/-- C10 (counterexample): after `setup` at 0 both buttons read LOW at 1000, more than
300 ms after any earlier event.  The thermocouple type advances to 1 and the ADC
channel stays at 0; with the thermocouple button HIGH at the same time the same
reading of the channel button is accepted and the channel advances to 1. -/
theorem shared_timestamp_blocks_channel_button :
    (loop (setup 0 0).1 (both_press_input 1000)).map
        (fun r => (r.2.tc_pressed, r.2.adc_pressed, r.1.tc_type, r.1.adc_chan))
      = some (true, false, 1, 0)
    ∧ (loop (setup 0 0).1 (adc_press_input 1000)).map
        (fun r => (r.2.tc_pressed, r.2.adc_pressed, r.1.tc_type, r.1.adc_chan))
      = some (false, true, 0, 1) := by
  refine ⟨by decide, by decide⟩

/-! ## The stages of `loop` -/

/-- An iteration that returns has returned at each of its stages. -/
theorem loop_stages (st st1 : State) (inp : LoopInput) (out : LoopOutput)
    (h : loop st inp = some (st1, out)) :
    ∃ (s1 s2 s3 : State) (control : Nat) (lcd : List LcdOp) (serial : List ℚ),
      loop_measure st inp = some (s1, control)
      ∧ loop_display s1 inp = some (s2, lcd)
      ∧ loop_tc_button s2 inp = some s3
      ∧ listen_to_serial (loop_adc_button s3 inp) inp.commandBuffer inp.serial
          = some (st1, serial)
      ∧ out = { control := control, lcd := lcd, tc_pressed := tc_button_pressed s2 inp,
                adc_pressed := adc_button_pressed s3 inp, serial := serial } := by
  unfold loop at h
  cases hm : loop_measure st inp with
  | none => simp [hm] at h
  | some r1 =>
    obtain ⟨s1, control⟩ := r1
    simp only [hm] at h
    cases hd : loop_display s1 inp with
    | none => simp [hd] at h
    | some r2 =>
      obtain ⟨s2, lcd⟩ := r2
      simp only [hd] at h
      cases ht : loop_tc_button s2 inp with
      | none => simp [ht] at h
      | some s3 =>
        simp only [ht] at h
        cases hl : listen_to_serial (loop_adc_button s3 inp) inp.commandBuffer inp.serial with
        | none => simp [hl] at h
        | some r5 =>
          obtain ⟨s5, serial⟩ := r5
          simp only [hl, Option.some.injEq, Prod.mk.injEq] at h
          exact ⟨s1, s2, s3, control, lcd, serial, rfl, hd, ht, by rw [hl, h.1], h.2.symm⟩

/-- The first stage: the sample of the thermocouple is taken over, the control byte of
the active channel is sent, voltage and temperature are filtered. -/
theorem loop_measure_eq (st s1 : State) (inp : LoopInput) (control : Nat)
    (h : loop_measure st inp = some (s1, control)) :
    adc_controlByte[st.adc_chan]? = some control
    ∧ s1 = { st with
        tc := st.tc.read inp.tc_sample
        voltage := (2048 * (adc_result inp.hiByte inp.loByte : ℚ) / 32768) * 0.001
          + st.voltage * 0.999
        temp := st.temp * 0.5 + inp.tc_sample.external * 0.5 } := by
  unfold loop_measure at h
  cases hr : read_adc { st with tc := st.tc.read inp.tc_sample } inp.hiByte inp.loByte with
  | none => simp [hr] at h
  | some q =>
    obtain ⟨q1, q2⟩ := q
    have eq := read_adc_frame _ _ _ _ _ hr
    simp only [hr, Option.some.injEq, Prod.mk.injEq] at h
    refine ⟨?_, ?_⟩
    · unfold read_adc at hr
      cases hc : adc_controlByte[st.adc_chan]? with
      | none => simp [hc] at hr
      | some c =>
        simp only [hc, Option.some.injEq, Prod.mk.injEq] at hr
        rw [← h.2, hr.2]
    · rw [← h.1, eq]
      rfl

/-- The second stage: nothing when the display is not due, else the timestamp is set
and `update_lcd` runs. -/
theorem loop_display_eq (s1 s2 : State) (inp : LoopInput) (lcd : List LcdOp)
    (h : loop_display s1 inp = some (s2, lcd)) :
    (display_due s1 inp = false → s2 = s1 ∧ lcd = [])
    ∧ (display_due s1 inp = true →
        s2 = { s1 with last_display_update := stamp32 inp.millis_139 }
        ∧ update_lcd { s1 with last_display_update := stamp32 inp.millis_139 } = some lcd) := by
  unfold loop_display at h
  by_cases hdue : display_due s1 inp = true
  · simp only [hdue, if_true] at h
    cases hu : update_lcd { s1 with last_display_update := stamp32 inp.millis_139 } with
    | none => simp [hu] at h
    | some ops =>
      simp only [hu, Option.some.injEq, Prod.mk.injEq] at h
      refine ⟨fun hf => by rw [hdue] at hf; exact absurd hf (by decide), fun _ => ?_⟩
      exact ⟨h.1.symm, by rw [h.2]⟩
  · have hf : display_due s1 inp = false := by simpa using hdue
    simp only [hf, Bool.false_eq_true, if_false, Option.some.injEq, Prod.mk.injEq] at h
    exact ⟨fun _ => ⟨h.1.symm, h.2.symm⟩, fun ht => by rw [hf] at ht; exact absurd ht (by decide)⟩

theorem toggle_tc_type_eq (st : State) (h : st.tc_type < 8) :
    ∃ t, type[(st.tc_type + 1) % 8]? = some t
      ∧ toggle_tc_type st = some { st with
          tc_type := (st.tc_type + 1) % 8
          tc := Nanoshield_Termopar.begin termopar_cs t TcAveraging.TC_AVG_16_SAMPLES } := by
  have he : (if (st.tc_type + 1) % 256 > 7 then 0 else (st.tc_type + 1) % 256)
      = (st.tc_type + 1) % 8 := by
    split <;> omega
  have hlt : (st.tc_type + 1) % 8 < type.length := by
    have : type.length = 8 := rfl
    omega
  refine ⟨type[(st.tc_type + 1) % 8], List.getElem?_eq_getElem hlt, ?_⟩
  unfold toggle_tc_type
  rw [he, List.getElem?_eq_getElem hlt]

theorem toggle_times_proj : ∀ (n : Nat) (st : State), st.tc_type < 8 → 0 < n →
    (toggle_times n st).map (fun s => (s.tc_type, s.tc.type, s.tc.avg))
      = some ((st.tc_type + n) % 8, type.getD ((st.tc_type + n) % 8) TcType.TC_TYPE_K,
          TcAveraging.TC_AVG_16_SAMPLES) := by
  intro n
  induction n with
  | zero => intro st _ h; omega
  | succ n ih =>
    intro st hst _
    obtain ⟨t, ht, htog⟩ := toggle_tc_type_eq st hst
    simp only [toggle_times, htog]
    cases n with
    | zero =>
      simp only [toggle_times, Option.map_some', Nanoshield_Termopar.begin]
      rw [List.getD_eq_getElem?_getD, ht]
      rfl
    | succ m =>
      rw [ih _ (by show (st.tc_type + 1) % 8 < 8; omega) (by omega)]
      have : ((st.tc_type + 1) % 8 + (m + 1)) % 8 = (st.tc_type + (m + 1 + 1)) % 8 := by omega
      simp only [this]

theorem run_valid : ∀ (inps : List LoopInput) (st st1 : State) (outs : List LoopOutput),
    run st inps = some (st1, outs) → st.valid → st1.valid := by
  intro inps
  induction inps with
  | nil =>
    intro st st1 outs h hv
    simp only [run, Option.some.injEq, Prod.mk.injEq] at h
    rw [← h.1]
    exact hv
  | cons inp inps ih =>
    intro st st2 outs h hv
    obtain ⟨s1, out, outs1, hl, hr, _⟩ := run_cons st st2 inp inps outs h
    exact ih s1 st2 outs1 hr (loop_valid st s1 inp out hl hv)

theorem reachable_valid (st : State) (h : reachable st) : st.valid := by
  obtain ⟨m1, m2, inps, outs, hr⟩ := h
  exact run_valid inps _ st outs hr ⟨show (0 : Nat) < 8 by omega, show (0 : Nat) < 2 by omega⟩

theorem loop_channel (st st1 : State) (inp : LoopInput) (out : LoopOutput)
    (h : loop st inp = some (st1, out)) (hc : st.adc_chan < 2) :
    (out.adc_pressed = true → st1.adc_chan = 1 - st.adc_chan)
    ∧ (out.adc_pressed = false → st1.adc_chan = st.adc_chan) := by
  obtain ⟨_, _, _, _, _, _, hchan, _⟩ := loop_effect st st1 inp out h
  refine ⟨fun hp => ?_, fun hp => ?_⟩
  · rw [hchan, hp]
    simp only [if_true]
    split <;> omega
  · rw [hchan, hp]
    simp

theorem run_channel : ∀ (inps : List LoopInput) (st st1 : State) (outs : List LoopOutput),
    run st inps = some (st1, outs) → st.adc_chan < 2 →
    st1.adc_chan = (st.adc_chan + adc_presses outs) % 2 := by
  intro inps
  induction inps with
  | nil =>
    intro st st1 outs h hc
    simp only [run, Option.some.injEq, Prod.mk.injEq] at h
    rw [← h.1, ← h.2]
    simp only [adc_presses, List.filter_nil, List.length_nil]
    omega
  | cons inp inps ih =>
    intro st st2 outs h hc
    obtain ⟨s1, out, outs1, hl, hr, houts⟩ := run_cons st st2 inp inps outs h
    obtain ⟨hp, hn⟩ := loop_channel st s1 inp out hl hc
    subst houts
    by_cases hpr : out.adc_pressed = true
    · have h1 := hp hpr
      have hs1 : s1.adc_chan < 2 := by omega
      rw [ih s1 st2 outs1 hr hs1, h1]
      simp only [adc_presses, List.filter_cons, hpr, if_true, List.length_cons]
      omega
    · have hf : out.adc_pressed = false := by simpa using hpr
      have h1 := hn hf
      rw [ih s1 st2 outs1 hr (by omega), h1]
      simp [adc_presses, List.filter_cons, hf]

theorem loop_control (st st1 : State) (inp : LoopInput) (out : LoopOutput)
    (h : loop st inp = some (st1, out)) : adc_controlByte[st.adc_chan]? = some out.control := by
  obtain ⟨s1, s2, s3, control, lcd, serial, hm, _, _, _, hout⟩ := loop_stages st st1 inp out h
  rw [hout]
  exact (loop_measure_eq st s1 inp control hm).1

theorem loop_lcd (st st1 : State) (inp : LoopInput) (out : LoopOutput)
    (h : loop st inp = some (st1, out)) :
    (display_due st inp = false → out.lcd = [])
    ∧ (display_due st inp = true →
        update_lcd { st with
          tc := st.tc.read inp.tc_sample
          voltage := (2048 * (adc_result inp.hiByte inp.loByte : ℚ) / 32768) * 0.001
            + st.voltage * 0.999
          temp := st.temp * 0.5 + inp.tc_sample.external * 0.5
          last_display_update := stamp32 inp.millis_139 } = some out.lcd) := by
  obtain ⟨s1, s2, s3, control, lcd, serial, hm, hd, _, _, hout⟩ := loop_stages st st1 inp out h
  obtain ⟨_, e1⟩ := loop_measure_eq st s1 inp control hm
  obtain ⟨hno, hyes⟩ := loop_display_eq s1 s2 inp lcd hd
  have hdue : display_due s1 inp = display_due st inp := by rw [e1]; rfl
  rw [hdue] at hno hyes
  rw [hout]
  refine ⟨fun hf => (hno hf).2, fun ht => ?_⟩
  have := (hyes ht).2
  rw [e1] at this
  exact this

/-! ## Type and channel selection, display: the claims -/

/-- C11: for every type index `i` in 0..7, `toggle_tc_type` sets the index to
`(i + 1) mod 8` and sets up the driver anew with the entry at the new index of the
table K, S, B, J, N, R, T, E, always with the 16-sample averaging; from index 0 the
successive presses select S, B, J, N, R, T, E and the eighth returns to K, so eight
presses are the identity on the index.  `Type_String` holds the letters of the
driver types of `type`, in the same order. -/
theorem toggle_tc_type_cycles :
    type = [TcType.TC_TYPE_K, TcType.TC_TYPE_S, TcType.TC_TYPE_B, TcType.TC_TYPE_J,
            TcType.TC_TYPE_N, TcType.TC_TYPE_R, TcType.TC_TYPE_T, TcType.TC_TYPE_E]
    ∧ (∀ st : State, st.tc_type < 8 →
        ∃ t, type[(st.tc_type + 1) % 8]? = some t
          ∧ toggle_tc_type st = some { st with
              tc_type := (st.tc_type + 1) % 8
              tc := Nanoshield_Termopar.begin termopar_cs t TcAveraging.TC_AVG_16_SAMPLES })
    ∧ (∀ (st : State) (k : Nat), st.tc_type = 0 → k < 8 →
        (toggle_times (k + 1) st).map (fun s => (s.tc_type, s.tc.type, s.tc.avg))
          = some ((k + 1) % 8,
              [TcType.TC_TYPE_S, TcType.TC_TYPE_B, TcType.TC_TYPE_J, TcType.TC_TYPE_N,
               TcType.TC_TYPE_R, TcType.TC_TYPE_T, TcType.TC_TYPE_E, TcType.TC_TYPE_K].getD k
                TcType.TC_TYPE_K,
              TcAveraging.TC_AVG_16_SAMPLES))
    ∧ (∀ st : State, st.tc_type < 8 →
        (toggle_times 8 st).map (fun s => s.tc_type) = some st.tc_type)
    ∧ type.map TcType.letter = Type_String := by
  refine ⟨rfl, toggle_tc_type_eq, ?_, ?_, by decide⟩
  · intro st k h0 hk
    rw [toggle_times_proj (k + 1) st (by omega) (by omega), h0]
    interval_cases k <;> rfl
  · intro st hst
    have h := toggle_times_proj 8 st hst (by omega)
    cases ht : toggle_times 8 st with
    | none => rw [ht] at h; simp at h
    | some s =>
      rw [ht] at h
      simp only [Option.map_some', Option.some.injEq, Prod.mk.injEq] at h
      simp only [Option.map_some', h.1]
      congr 1
      omega

/-- C11 (witness): the presses after `setup`, which leaves the index at 0. -/
theorem toggle_tc_type_cycles_witness :
    (toggle_times 3 (setup 0 0).1).map (fun s => (s.tc_type, s.tc.type, s.tc.avg))
      = some (3, TcType.TC_TYPE_J, TcAveraging.TC_AVG_16_SAMPLES)
    ∧ (toggle_times 8 (setup 0 0).1).map (fun s => s.tc_type) = some 0 :=
  ⟨toggle_tc_type_cycles.2.2.1 (setup 0 0).1 2 rfl (by decide),
   toggle_tc_type_cycles.2.2.2.1 (setup 0 0).1 (by decide)⟩

/-- C12: every accepted press of the channel button maps the active ADC channel `c` in
{0, 1} to `1 - c`, so the channel is 0 or 1 in every reachable state and after `n`
accepted presses from 0 it is `n mod 2`; the control byte that `read_adc` sends is
`0b01100000` when the channel is 0 and `0b00110000` when it is 1, and in every
reachable state the channel is an index of the table of control bytes. -/
theorem adc_channel_toggles :
    (∀ (st st1 : State) (inp : LoopInput) (out : LoopOutput),
        loop st inp = some (st1, out) → st.adc_chan < 2 →
        (out.adc_pressed = true → st1.adc_chan = 1 - st.adc_chan)
        ∧ (out.adc_pressed = false → st1.adc_chan = st.adc_chan))
    ∧ (∀ st : State, reachable st → st.adc_chan = 0 ∨ st.adc_chan = 1)
    ∧ (∀ (st st1 : State) (inps : List LoopInput) (outs : List LoopOutput),
        run st inps = some (st1, outs) → st.adc_chan = 0 →
        st1.adc_chan = adc_presses outs % 2)
    ∧ (∀ (st st1 : State) (inp : LoopInput) (out : LoopOutput),
        loop st inp = some (st1, out) →
        (st.adc_chan = 0 → out.control = 0b01100000)
        ∧ (st.adc_chan = 1 → out.control = 0b00110000))
    ∧ (∀ (st : State) (hiByte loByte : Nat), reachable st →
        ∃ st1 control, read_adc st hiByte loByte = some (st1, control)
          ∧ adc_controlByte[st.adc_chan]? = some control
          ∧ (st.adc_chan = 0 → control = 0b01100000)
          ∧ (st.adc_chan = 1 → control = 0b00110000)) := by
  refine ⟨loop_channel, ?_, ?_, ?_, ?_⟩
  · intro st hr
    have := (reachable_valid st hr).2
    omega
  · intro st st1 inps outs h h0
    rw [run_channel inps st st1 outs h (by omega), h0, Nat.zero_add]
  · intro st st1 inp out h
    have hc := loop_control st st1 inp out h
    refine ⟨fun h0 => ?_, fun h1 => ?_⟩
    · rw [h0] at hc
      simpa [adc_controlByte] using hc.symm
    · rw [h1] at hc
      simpa [adc_controlByte] using hc.symm
  · intro st hiByte loByte hr
    obtain ⟨control, h⟩ := read_adc_valid st hiByte loByte (reachable_valid st hr).2
    have hc : adc_controlByte[st.adc_chan]? = some control := by
      unfold read_adc at h
      cases hk : adc_controlByte[st.adc_chan]? with
      | none => simp [hk] at h
      | some c =>
        simp only [hk, Option.some.injEq, Prod.mk.injEq] at h
        rw [h.2]
    refine ⟨_, control, h, hc, fun h0 => ?_, fun h1 => ?_⟩
    · rw [h0] at hc
      simpa [adc_controlByte] using hc.symm
    · rw [h1] at hc
      simpa [adc_controlByte] using hc.symm

/-- C12 (witness): after `setup` at 0 the channel button reads LOW at 1000 and at 2000. -/
theorem adc_channel_toggles_witness :
    ∃ st1 outs, run (setup 0 0).1 [adc_press_input 1000, adc_press_input 2000]
        = some (st1, outs)
      ∧ st1.adc_chan = adc_presses outs % 2
      ∧ (st1.adc_chan = 0 ∨ st1.adc_chan = 1)
      ∧ outs.map (fun o => o.control) = [0b01100000, 0b00110000] := by
  obtain ⟨st1, outs, h⟩ := run_total [adc_press_input 1000, adc_press_input 2000] (setup 0 0).1
    (by unfold State.valid; decide) (by unfold serial_handled; decide)
  refine ⟨st1, outs, h, adc_channel_toggles.2.2.1 _ st1 _ outs h rfl,
    adc_channel_toggles.2.1 st1 ⟨0, 0, _, outs, h⟩, ?_⟩
  obtain ⟨s1, o1, outs1, hl1, hr1, e1⟩ := run_cons _ _ _ _ _ h
  obtain ⟨s2, o2, outs2, hl2, hr2, e2⟩ := run_cons _ _ _ _ _ hr1
  simp only [run, Option.some.injEq, Prod.mk.injEq] at hr2
  have c1 := (adc_channel_toggles.2.2.2.1 _ s1 _ o1 hl1).1 rfl
  have hp1 : o1.adc_pressed = true := by
    rw [(loop_effect _ s1 _ o1 hl1).2.2.2.1]
    decide
  have hs1 : s1.adc_chan = 1 :=
    ((adc_channel_toggles.1 _ s1 _ o1 hl1 (by decide)).1 hp1).trans (by decide)
  have c2 := (adc_channel_toggles.2.2.2.1 s1 s2 _ o2 hl2).2 hs1
  rw [e1, e2, ← hr2.2]
  simp [c1, c2]

/-- C13: for every combination of the four error flags with at least one flag set, a
display refresh clears the display and prints exactly one message and no
temperature line, the message of the first set flag in the order open circuit,
over/under voltage, internal out of range, external out of range; with the open
circuit and the internal out of range flag both set only `Open circuit` is shown.
When no flag is set the temperature line is printed and no message.  The flags are
those of the sample taken in the iteration that refreshes the display. -/
theorem display_shows_first_error :
    (∀ st : State, st.tc.isOpen = true →
        update_lcd st = some [LcdOp.clear, LcdOp.setCursor 0 0,
          LcdOp.print (LcdText.literal "Open circuit")])
    ∧ (∀ st : State, st.tc.isOpen = false → st.tc.isOverUnderVoltage = true →
        update_lcd st = some [LcdOp.clear, LcdOp.setCursor 0 0,
          LcdOp.print (LcdText.literal "OverUnderVoltage")])
    ∧ (∀ st : State, st.tc.isOpen = false → st.tc.isOverUnderVoltage = false →
        st.tc.isInternalOutOfRange = true →
        update_lcd st = some [LcdOp.clear, LcdOp.setCursor 0 0,
          LcdOp.print (LcdText.literal "Internal T OOR")])
    ∧ (∀ st : State, st.tc.isOpen = false → st.tc.isOverUnderVoltage = false →
        st.tc.isInternalOutOfRange = false → st.tc.isExternalOutOfRange = true →
        update_lcd st = some [LcdOp.clear, LcdOp.setCursor 0 0,
          LcdOp.print (LcdText.literal "External T OOR")])
    ∧ (∀ st : State, st.tc.isOpen = false → st.tc.isOverUnderVoltage = false →
        st.tc.isInternalOutOfRange = false → st.tc.isExternalOutOfRange = false →
        st.tc_type < 8 →
        ∃ letter, Type_String[st.tc_type]? = some letter
          ∧ update_lcd st = some [LcdOp.clear, LcdOp.setCursor 0 0,
              LcdOp.print (LcdText.temperature_line letter st.temp)])
    ∧ (∀ (st st1 : State) (inp : LoopInput) (out : LoopOutput),
        loop st inp = some (st1, out) → display_due st inp = true →
        inp.tc_sample.isOpen = true → inp.tc_sample.isInternalOutOfRange = true →
        out.lcd = [LcdOp.clear, LcdOp.setCursor 0 0,
          LcdOp.print (LcdText.literal "Open circuit")]) := by
  have hopen : ∀ st : State, st.tc.isOpen = true →
      update_lcd st = some [LcdOp.clear, LcdOp.setCursor 0 0,
        LcdOp.print (LcdText.literal "Open circuit")] := by
    intro st h1
    simp [update_lcd, Nanoshield_Termopar.hasError, print_errors, h1, MINIMAL]
  refine ⟨hopen, ?_, ?_, ?_, ?_, ?_⟩
  · intro st h1 h2
    simp [update_lcd, Nanoshield_Termopar.hasError, print_errors, h1, h2, MINIMAL]
  · intro st h1 h2 h3
    simp [update_lcd, Nanoshield_Termopar.hasError, print_errors, h1, h2, h3, MINIMAL]
  · intro st h1 h2 h3 h4
    simp [update_lcd, Nanoshield_Termopar.hasError, print_errors, h1, h2, h3, h4, MINIMAL]
  · intro st h1 h2 h3 h4 hlt
    have hl : st.tc_type < Type_String.length := hlt
    refine ⟨Type_String[st.tc_type], List.getElem?_eq_getElem hl, ?_⟩
    simp [update_lcd, Nanoshield_Termopar.hasError, print_temperature, h1, h2, h3, h4, MINIMAL,
      List.getElem?_eq_getElem hl]
  · intro st st1 inp out h hdue h1 _
    have hu := (loop_lcd st st1 inp out h).2 hdue
    rw [hopen _ (by simp [Nanoshield_Termopar.read, h1])] at hu
    exact (Option.some.inj hu).symm

/-- C13 (witness): a state whose driver reports an open circuit and an internal
temperature out of range. -/
theorem display_shows_first_error_witness :
    update_lcd { (setup 0 0).1 with
        tc := { (setup 0 0).1.tc with isOpen := true, isInternalOutOfRange := true } }
      = some [LcdOp.clear, LcdOp.setCursor 0 0, LcdOp.print (LcdText.literal "Open circuit")] :=
  display_shows_first_error.1 _ rfl

/-! ## Display refresh: lemmas and the claim -/

theorem clock_monotone_display (start : Nat) (inp : LoopInput) (inps : List LoopInput)
    (h : clock_monotone start (inp :: inps)) :
    (start < 2 ^ 32 ∧ start ≤ inp.millis_137 ∧ inp.millis_137 < 2 ^ 32
      ∧ inp.millis_137 ≤ inp.millis_139 ∧ inp.millis_139 < 2 ^ 32)
    ∧ clock_monotone start inps ∧ clock_monotone inp.millis_139 inps := by
  unfold clock_monotone at h ⊢
  obtain ⟨hp, hb⟩ := h
  simp only [List.flatMap_cons, clock_readings, List.pairwise_cons, List.pairwise_append,
    List.mem_cons, List.mem_append, List.cons_append, List.nil_append, forall_eq_or_imp] at hp hb
  simp only [List.pairwise_cons, List.mem_cons, forall_eq_or_imp]
  obtain ⟨⟨s137, _, _, _, _, _, srest⟩, ⟨h39, _, _, _, _, _⟩, ⟨_, _, _, _, r139⟩, _, _, _,
    ⟨_, pw⟩⟩ := hp
  obtain ⟨b0, b137, b139, _, _, _, _, brest⟩ := hb
  exact ⟨⟨b0, s137, b137, h39, b139⟩, ⟨⟨srest, pw⟩, b0, brest⟩, ⟨⟨r139, pw⟩, b139, brest⟩⟩

theorem update_lcd_clears (st : State) (ops : List LcdOp) (h : update_lcd st = some ops) :
    ∃ rest, ops = LcdOp.clear :: rest := by
  unfold update_lcd at h
  cases hm : (if st.tc.hasError = true then some (print_errors st) else print_temperature st) with
  | none => simp [hm] at h
  | some o =>
    simp only [hm, Option.some.injEq] at h
    exact ⟨_, h.symm⟩

theorem loop_redrawn (st st1 : State) (inp : LoopInput) (out : LoopOutput)
    (h : loop st inp = some (st1, out)) :
    out.redrawn = display_due st inp
    ∧ st1.last_display_update =
        (if out.redrawn then stamp32 inp.millis_139 else st.last_display_update) := by
  obtain ⟨hno, hyes⟩ := loop_lcd st st1 inp out h
  have hldu := (loop_effect st st1 inp out h).2.2.2.2.2.2.2
  have hr : out.redrawn = display_due st inp := by
    by_cases hdue : display_due st inp = true
    · obtain ⟨rest, hrest⟩ := update_lcd_clears _ _ (hyes hdue)
      rw [hdue]
      simp [LoopOutput.redrawn, hrest]
    · have hf : display_due st inp = false := by simpa using hdue
      rw [hf]
      simp [LoopOutput.redrawn, hno hf]
  exact ⟨hr, by rw [hr]; exact hldu⟩

theorem display_due_eq (st : State) (inp : LoopInput)
    (h : st.last_display_update ≤ inp.millis_137) (hn : inp.millis_137 < 2 ^ 32) :
    display_due st inp = decide (inp.millis_137 > st.last_display_update + 1000) := by
  unfold display_due
  rw [elapsed_of_le _ _ h hn]
  apply decide_eq_decide.mpr
  omega

theorem run_display : ∀ (inps : List LoopInput) (st st1 : State) (outs : List LoopOutput),
    run st inps = some (st1, outs) → clock_monotone st.last_display_update inps →
    outs.map (fun o => o.redrawn) = refresh_spec st.last_display_update (display_readings inps) := by
  intro inps
  induction inps with
  | nil =>
    intro st st1 outs h _
    simp only [run, Option.some.injEq, Prod.mk.injEq] at h
    rw [← h.2]
    simp [display_readings, refresh_spec]
  | cons inp inps ih =>
    intro st st2 outs h hmono
    obtain ⟨s1, out, outs1, hl, hr, houts⟩ := run_cons st st2 inp inps outs h
    obtain ⟨⟨b0, s137, b137, h39, b139⟩, m0, m139⟩ := clock_monotone_display _ inp inps hmono
    obtain ⟨hred, hldu⟩ := loop_redrawn st s1 inp out hl
    rw [display_due_eq st inp s137 b137] at hred
    rw [stamp32_of_lt _ b139] at hldu
    subst houts
    by_cases hp : inp.millis_137 > st.last_display_update + 1000
    · have hr1 : out.redrawn = true := by rw [hred]; simp [hp]
      rw [hr1] at hldu
      simp only [if_true] at hldu
      have ih1 := ih s1 st2 outs1 hr (by rw [hldu]; exact m139)
      simp only [List.map_cons, display_readings, refresh_spec, hp, if_true, hr1]
      rw [← hldu]
      exact congrArg _ ih1
    · have hr0 : out.redrawn = false := by rw [hred]; simp [hp]
      rw [hr0] at hldu
      simp only [Bool.false_eq_true, if_false] at hldu
      have ih1 := ih s1 st2 outs1 hr (by rw [hldu]; exact m0)
      simp only [List.map_cons, display_readings, refresh_spec, hp, if_false, hr0]
      rw [← hldu]
      exact congrArg _ ih1

/-- A redraw after iterations without one comes more than 1000 ms after `last`. -/
theorem refresh_spec_first (check stamp : Nat) :
    ∀ (pre : List (Nat × Nat)) (last : Nat),
    refresh_spec last (pre ++ [(check, stamp)]) = List.replicate pre.length false ++ [true] →
    check > last + 1000 := by
  intro pre
  induction pre with
  | nil =>
    intro last h
    by_contra hc
    simp [refresh_spec, hc] at h
  | cons p pre ih =>
    intro last h
    obtain ⟨c, s⟩ := p
    by_cases hc : c > last + 1000
    · simp [refresh_spec, hc, List.replicate_succ] at h
    · simp only [List.cons_append, refresh_spec, hc, if_false, List.length_cons,
        List.replicate_succ, List.cons.injEq, true_and] at h
      exact ih last h

theorem refresh_spec_next (c1 s1 check stamp last : Nat) (mid : List (Nat × Nat))
    (h : refresh_spec last ((c1, s1) :: (mid ++ [(check, stamp)]))
      = true :: (List.replicate mid.length false ++ [true])) :
    check > s1 + 1000 := by
  by_cases hc : c1 > last + 1000
  · simp only [refresh_spec, hc, if_true, List.cons.injEq, true_and] at h
    exact refresh_spec_first check stamp mid s1 h
  · simp [refresh_spec, hc] at h

/-- C14: with non-decreasing clock readings, the display is redrawn in an iteration
of `loop` only if (and whenever) more than 1000 ms have passed since the stored
timestamp `last_display_update`, and every redraw sets that timestamp to the clock
reading of line 139: the redraws of a run are those of `refresh_spec`.  Hence two
consecutive redraws are more than 1000 ms apart, and the first redraw comes more
than 1000 ms after the end of `setup`, which stores its clock reading of line 124. -/
theorem display_refresh_period :
    (∀ (st st1 : State) (inp : LoopInput) (out : LoopOutput),
        loop st inp = some (st1, out) →
        (out.redrawn = true ↔ elapsed inp.millis_137 st.last_display_update > 1000)
        ∧ (out.redrawn = true → st1.last_display_update = stamp32 inp.millis_139)
        ∧ (out.redrawn = false → st1.last_display_update = st.last_display_update))
    ∧ (∀ (st st1 : State) (inps : List LoopInput) (outs : List LoopOutput),
        run st inps = some (st1, outs) → clock_monotone st.last_display_update inps →
        outs.map (fun o => o.redrawn)
          = refresh_spec st.last_display_update (display_readings inps))
    ∧ (∀ (st st1 : State) (i1 i2 : LoopInput) (mid : List LoopInput) (outs : List LoopOutput),
        run st (i1 :: (mid ++ [i2])) = some (st1, outs) →
        clock_monotone st.last_display_update (i1 :: (mid ++ [i2])) →
        outs.map (fun o => o.redrawn) = true :: (List.replicate mid.length false ++ [true]) →
        i2.millis_137 > i1.millis_139 + 1000)
    ∧ (∀ (millis_123 millis_124 : Nat) (st1 : State) (pre : List LoopInput) (i : LoopInput)
        (outs : List LoopOutput), millis_124 < 2 ^ 32 →
        run (setup millis_123 millis_124).1 (pre ++ [i]) = some (st1, outs) →
        clock_monotone millis_124 (pre ++ [i]) →
        outs.map (fun o => o.redrawn) = List.replicate pre.length false ++ [true] →
        i.millis_137 > millis_124 + 1000) := by
  refine ⟨?_, fun st st1 inps outs h hm => run_display inps st st1 outs h hm, ?_, ?_⟩
  · intro st st1 inp out h
    obtain ⟨hred, hldu⟩ := loop_redrawn st st1 inp out h
    refine ⟨?_, fun ht => by rw [hldu, ht]; rfl, fun hf => by rw [hldu, hf]; rfl⟩
    rw [hred]
    unfold display_due
    simp
  · intro st st1 i1 i2 mid outs h hm hflags
    have hspec := run_display _ st st1 outs h hm
    rw [hflags] at hspec
    have hread : display_readings (i1 :: (mid ++ [i2]))
        = (i1.millis_137, i1.millis_139)
            :: (display_readings mid ++ [(i2.millis_137, i2.millis_139)]) := by
      simp [display_readings]
    have hlen : (display_readings mid).length = mid.length := by simp [display_readings]
    rw [hread, ← hlen] at hspec
    exact refresh_spec_next _ _ _ _ _ _ hspec.symm
  · intro millis_123 millis_124 st1 pre i outs hlt h hm hflags
    have hs : (setup millis_123 millis_124).1.last_display_update = millis_124 :=
      stamp32_of_lt _ hlt
    have hspec := run_display _ _ st1 outs h (by rw [hs]; exact hm)
    rw [hflags, hs] at hspec
    have hread : display_readings (pre ++ [i])
        = display_readings pre ++ [(i.millis_137, i.millis_139)] := by
      simp [display_readings]
    have hlen : (display_readings pre).length = pre.length := by simp [display_readings]
    rw [hread, ← hlen] at hspec
    exact refresh_spec_first _ _ _ _ hspec.symm

/-- C14 (witness): after `setup` at 0, quiet iterations at 500, 1001, 1500, 2001 and
2002: the display is redrawn at 1001 and at 2002. -/
theorem display_refresh_period_witness :
    ∃ st1 outs,
      run (setup 0 0).1 [quiet_input 0 500, quiet_input 0 1001, quiet_input 0 1500,
          quiet_input 0 2001, quiet_input 0 2002] = some (st1, outs)
      ∧ outs.map (fun o => o.redrawn) = [false, true, false, false, true] := by
  obtain ⟨st1, outs, h⟩ := run_total [quiet_input 0 500, quiet_input 0 1001, quiet_input 0 1500,
      quiet_input 0 2001, quiet_input 0 2002] (setup 0 0).1
    (by unfold State.valid; decide) (by unfold serial_handled; decide)
  refine ⟨st1, outs, h, ?_⟩
  rw [display_refresh_period.2.1 (setup 0 0).1 st1 _ outs h (by unfold clock_monotone; decide)]
  decide

/-! ## The array of token pointers: the claim -/

/-- C15 (code defect): the tokenizer loop stores one pointer per token and then the
null pointer that ends the loop, so a line with a verb and one argument is stored at
the indices 0, 1 and 2 of `commandPointers`, which has 2 slots.  For the line
`FUNC 'VOLT'` the write at index 2 is out of bounds and the bounds-checked store
fails; for the line `read?` the writes are at the indices 0 and 1. -/
theorem third_pointer_is_written_out_of_bounds (commandBuffer : List Nat)
    (hbuf : commandBuffer.length = 51) :
    pointer_writes (fill_buffer commandBuffer (lit_FUNC ++ 32 :: lit_VOLT ++ [10])).1
      = some [(0, some lit_FUNC), (1, some lit_VOLT), (2, none)]
    ∧ tokenize_checked (fill_buffer commandBuffer (lit_FUNC ++ 32 :: lit_VOLT ++ [10])).1
      = none
    ∧ pointer_writes (fill_buffer commandBuffer (lit_read ++ [10])).1
      = some [(0, some lit_read), (1, none)]
    ∧ tokenize_checked (fill_buffer commandBuffer (lit_read ++ [10])).1
      = some [some lit_read, none] := by
  have hfill := fill_buffer_line commandBuffer (lit_FUNC ++ 32 :: lit_VOLT) [] hbuf
    (by decide) (by decide)
  have htok := pointer_values_verb_args lit_FUNC lit_VOLT
    (List.replicate (49 - (lit_FUNC ++ 32 :: lit_VOLT).length) 0 ++ commandBuffer.drop 50)
    (by decide) (by decide) (by decide)
  have hlen := filled_buffer_length commandBuffer (lit_FUNC ++ 32 :: lit_VOLT) hbuf (by decide)
  have hw : pointer_writes (fill_buffer commandBuffer (lit_FUNC ++ 32 :: lit_VOLT ++ [10])).1
      = some [(0, some lit_FUNC), (1, some lit_VOLT), (2, none)] := by
    rw [hfill, pointer_writes_eq _ (le_of_eq hlen), htok]
    decide
  have hfill2 := fill_buffer_line commandBuffer lit_read [] hbuf (by decide) (by decide)
  have htok2 := pointer_values_verb_only lit_read
    (List.replicate (49 - lit_read.length) 0 ++ commandBuffer.drop 50) (by decide) (by decide)
  have hlen2 := filled_buffer_length commandBuffer lit_read hbuf (by decide)
  have hw2 : pointer_writes (fill_buffer commandBuffer (lit_read ++ [10])).1
      = some [(0, some lit_read), (1, none)] := by
    rw [hfill2, pointer_writes_eq _ (le_of_eq hlen2), htok2]
    rfl
  refine ⟨hw, ?_, hw2, ?_⟩
  · simp only [tokenize_checked, hw]
    decide
  · simp only [tokenize_checked, hw2]
    decide

/-- C15 (witness): the input `FUNC 'VOLT'` followed by a line feed, read into an array
that held the byte `0xAA` everywhere. -/
theorem third_pointer_is_written_out_of_bounds_witness :
    pointer_writes (fill_buffer (List.replicate 51 170)
        (lit_FUNC ++ 32 :: lit_VOLT ++ [10])).1
      = some [(0, some lit_FUNC), (1, some lit_VOLT), (2, none)]
    ∧ tokenize_checked (fill_buffer (List.replicate 51 170)
        (lit_FUNC ++ 32 :: lit_VOLT ++ [10])).1 = none :=
  ⟨(third_pointer_is_written_out_of_bounds (List.replicate 51 170) (by decide)).1,
   (third_pointer_is_written_out_of_bounds (List.replicate 51 170) (by decide)).2.1⟩

/-! ## The voltage filter and the ADC code: the claims -/

theorem read_adc_voltage (st st1 : State) (hiByte loByte control : Nat)
    (h : read_adc st hiByte loByte = some (st1, control)) :
    st1.voltage = 0.001 * millivolts (adc_result hiByte loByte) + 0.999 * st.voltage := by
  rw [read_adc_frame st st1 hiByte loByte control h]
  simp only [millivolts]
  ring

theorem run_voltage (code : Int) : ∀ (inps : List LoopInput) (st st1 : State)
    (outs : List LoopOutput), run st inps = some (st1, outs) →
    (∀ inp ∈ inps, adc_result inp.hiByte inp.loByte = code) →
    st1.voltage - millivolts code = 0.999 ^ inps.length * (st.voltage - millivolts code) := by
  intro inps
  induction inps with
  | nil =>
    intro st st1 outs h _
    simp only [run, Option.some.injEq, Prod.mk.injEq] at h
    rw [← h.1]
    simp
  | cons inp inps ih =>
    intro st st2 outs h hcode
    obtain ⟨s1, out, outs1, hl, hr, _⟩ := run_cons st st2 inp inps outs h
    have hv := (loop_effect st s1 inp out hl).2.1
    rw [hcode inp (List.mem_cons_self inp inps)] at hv
    rw [ih s1 st2 outs1 hr (fun i hi => hcode i (List.mem_cons_of_mem inp hi)), hv]
    simp only [millivolts, List.length_cons]
    ring

/-- C16: over exact rationals the voltage update of `read_adc` is a normalised
exponential moving average with weight 0.001 of the millivolt value
`m = 2048 * code / 32768`: `v' = 0.001 * m + 0.999 * v`.  Hence `m` is the only fixed
point, `v' - m = 0.999 * (v - m)`, and for a constant code the distance to `m` shrinks
by the factor 0.999 at every sample and the filtered voltage stays within
`max(|v_0|, |m|)`. -/
theorem voltage_filter_is_normalized :
    (∀ (st st1 : State) (hiByte loByte control : Nat),
        read_adc st hiByte loByte = some (st1, control) →
        st1.voltage = 0.001 * millivolts (adc_result hiByte loByte) + 0.999 * st.voltage
        ∧ st1.voltage - millivolts (adc_result hiByte loByte)
            = 0.999 * (st.voltage - millivolts (adc_result hiByte loByte))
        ∧ (st1.voltage = st.voltage ↔ st.voltage = millivolts (adc_result hiByte loByte)))
    ∧ (∀ (code : Int) (st st1 : State) (inps : List LoopInput) (outs : List LoopOutput),
        run st inps = some (st1, outs) →
        (∀ inp ∈ inps, adc_result inp.hiByte inp.loByte = code) →
        st1.voltage - millivolts code = 0.999 ^ inps.length * (st.voltage - millivolts code)
        ∧ abs st1.voltage ≤ max (abs st.voltage) (abs (millivolts code))) := by
  constructor
  · intro st st1 hiByte loByte control h
    have hv := read_adc_voltage st st1 hiByte loByte control h
    refine ⟨hv, by rw [hv]; ring, ?_⟩
    rw [hv]
    constructor
    · intro he
      linarith
    · intro he
      rw [he]
      ring
  · intro code st st1 inps outs h hcode
    have hd := run_voltage code inps st st1 outs h hcode
    refine ⟨hd, ?_⟩
    have hq0 : (0 : ℚ) ≤ 0.999 ^ inps.length := by positivity
    have hq1 : (0.999 : ℚ) ^ inps.length ≤ 1 := pow_le_one₀ (by norm_num) (by norm_num)
    have hv : st1.voltage = (1 - 0.999 ^ inps.length) * millivolts code
        + 0.999 ^ inps.length * st.voltage := by linarith
    have hm : abs (millivolts code) ≤ max (abs st.voltage) (abs (millivolts code)) :=
      le_max_right _ _
    have h0 : abs st.voltage ≤ max (abs st.voltage) (abs (millivolts code)) :=
      le_max_left _ _
    have h1 : (0 : ℚ) ≤ 1 - 0.999 ^ inps.length := by linarith
    calc abs st1.voltage
        = abs ((1 - 0.999 ^ inps.length) * millivolts code
            + 0.999 ^ inps.length * st.voltage) := by rw [hv]
      _ ≤ abs ((1 - 0.999 ^ inps.length) * millivolts code)
            + abs (0.999 ^ inps.length * st.voltage) := abs_add _ _
      _ = (1 - 0.999 ^ inps.length) * abs (millivolts code)
            + 0.999 ^ inps.length * abs st.voltage := by
          rw [abs_mul, abs_mul, abs_of_nonneg h1, abs_of_nonneg hq0]
      _ ≤ (1 - 0.999 ^ inps.length) * max (abs st.voltage) (abs (millivolts code))
            + 0.999 ^ inps.length * max (abs st.voltage) (abs (millivolts code)) :=
          add_le_add (mul_le_mul_of_nonneg_left hm h1) (mul_le_mul_of_nonneg_left h0 hq0)
      _ = max (abs st.voltage) (abs (millivolts code)) := by ring

/-- C16 (witness): the response bytes `0x40`, `0x00` (1024 mV) after `setup`, once and
in three quiet iterations with the response bytes 0 (0 mV). -/
theorem voltage_filter_is_normalized_witness :
    (∃ st1 control, read_adc (setup 0 0).1 64 0 = some (st1, control)
      ∧ st1.voltage = 0.001 * millivolts (adc_result 64 0) + 0.999 * (setup 0 0).1.voltage)
    ∧ ∃ st1 outs, run (setup 0 0).1 [quiet_input 0 10, quiet_input 0 20, quiet_input 0 30]
        = some (st1, outs)
      ∧ abs st1.voltage ≤ max (abs (setup 0 0).1.voltage) (abs (millivolts 0)) := by
  constructor
  · obtain ⟨control, h⟩ := read_adc_valid (setup 0 0).1 64 0 (by decide)
    exact ⟨_, control, h, (voltage_filter_is_normalized.1 _ _ 64 0 control h).1⟩
  · obtain ⟨st1, outs, h⟩ := run_total [quiet_input 0 10, quiet_input 0 20, quiet_input 0 30]
      (setup 0 0).1 (by unfold State.valid; decide) (by unfold serial_handled; decide)
    exact ⟨st1, outs, h, (voltage_filter_is_normalized.2 0 _ st1 _ outs h (by decide)).2⟩

/-- C17: for all response bytes `hi` and `lo` in 0..255 the ADC code of `read_adc` is
the big-endian combination `256 * hi + lo` taken as a signed 16-bit value: it equals
`256 * hi + lo` when `hi < 128` and `256 * hi + lo - 65536` when `hi >= 128`, it is
congruent to `256 * hi + lo` modulo `2 ^ 16` and lies in -32768..32767; it is the
code that enters the voltage of `read_adc`. -/
theorem adc_code_is_twos_complement (hiByte loByte : Nat) (hhi : hiByte < 256)
    (hlo : loByte < 256) :
    (hiByte < 128 → adc_result hiByte loByte = 256 * (hiByte : Int) + (loByte : Int))
    ∧ (128 ≤ hiByte →
        adc_result hiByte loByte = 256 * (hiByte : Int) + (loByte : Int) - 65536)
    ∧ adc_result hiByte loByte % 2 ^ 16 = (256 * (hiByte : Int) + (loByte : Int)) % 2 ^ 16
    ∧ -32768 ≤ adc_result hiByte loByte ∧ adc_result hiByte loByte ≤ 32767
    ∧ (∀ (st st1 : State) (control : Nat), read_adc st hiByte loByte = some (st1, control) →
        st1.voltage = (2048 * (adc_result hiByte loByte : ℚ) / 32768) * 0.001
          + st.voltage * 0.999) := by
  have he := adc_result_eq hiByte loByte
  unfold int16 at he
  refine ⟨fun h => ?_, fun h => ?_, ?_, ?_, ?_, ?_⟩
  · rw [he]; split <;> omega
  · rw [he]; split <;> omega
  · rw [he]; split <;> omega
  · rw [he]; split <;> omega
  · rw [he]; split <;> omega
  · intro st st1 control h
    rw [read_adc_frame st st1 hiByte loByte control h]

/-- C17 (witness): the response bytes `0xFF`, `0xFE` give the code -2. -/
theorem adc_code_is_twos_complement_witness : adc_result 255 254 = -2 :=
  ((adc_code_is_twos_complement 255 254 (by decide) (by decide)).2.1 (by decide)).trans
    (by decide)

/-! ## The serial mode: lemmas and the claim -/

end Thermolino
